import Mathlib

/-!
Verification development for the coredns-hosts-api repository.

The development shallowly embeds the convergence core of the repository:
the directive-document model and the stanza normalizer of
pkg/installer/server.go (BuildNewCoreFile and its helpers), the
parser/serializer component described in the specification (the concrete
lexer lives in the caddyfile dependency, outside this repository, so it is
modelled from the specification), the reconciliation call sites
(ensureClusterrole, ensureDeployment, ensureService, ensureCoreDNSConfigmap,
initConfigmap, SetData, DeleteData) over an abstract remote API, the
one-shot configmap sync (syncConfigmap), and the work-queue worker loop.
-/

namespace CorednsHostsApi

/-! Directive-document model.

A parsed Corefile is a list of server blocks; each block has selector keys
and a list of directive lines.  A line is a head token (the directive
name), scalar argument tokens, and an optional nested brace-delimited body.
In the Go code a line is the flat item slice built by constructLine, where
a nested body occupies one trailing slot of the slice; the embedding keeps
the head, the scalar arguments and the optional body apart. -/

mutual
/-- One directive line: head token, scalar arguments, optional nested body. -/
inductive Line : Type where
  | mk (head : String) (args : List String) (body : Option Lines)
/-- A sequence of nested lines forming the brace-delimited body of a line. -/
inductive Lines : Type where
  | nil
  | cons (l : Line) (rest : Lines)
end

/-- Head token (the directive name) of a line. -/
def Line.head : Line → String
  | .mk h _ _ => h

/-- Scalar argument tokens of a line. -/
def Line.args : Line → List String
  | .mk _ a _ => a

/-- Optional nested body of a line. -/
def Line.body : Line → Option Lines
  | .mk _ _ b => b

/-- Conversion from the nested line sequence to an ordinary list. -/
def Lines.toList : Lines → List Line
  | .nil => []
  | .cons l rest => l :: rest.toList

/-- Conversion from an ordinary list to the nested line sequence. -/
def Lines.ofList : List Line → Lines
  | [] => .nil
  | l :: rest => .cons l (Lines.ofList rest)

/-- One server block: selector keys plus the directive lines of its body. -/
structure Block where
  keys : List String
  lines : List Line

/-! Lexicographic string comparison.

Go sorts the directive names with sort.Strings, i.e. lexicographic byte
order; the embedding compares the character lists of the strings. -/

/-- Lexicographic comparison of character lists. -/
def charListLe : List Char → List Char → Bool
  | [], _ => true
  | _ :: _, [] => false
  | a :: as, b :: bs => if a = b then charListLe as bs else decide (a < b)

/-- Lexicographic string comparison, as used by sort.Strings. -/
def strLe (a b : String) : Bool := charListLe a.data b.data

/-- The sorting relation on strings, in Prop form for List.insertionSort. -/
def StrLeP (a b : String) : Prop := strLe a b = true

instance : DecidableRel StrLeP := fun a b => by
  unfold StrLeP
  infer_instance

/-- Sorting a list of strings lexicographically, mirroring sort.Strings. -/
def sortStrings (l : List String) : List String :=
  List.insertionSort StrLeP l

/-! Stanza normalizer.

Embedding of BuildNewCoreFile from pkg/installer/server.go, at the level of
the parsed document.  The Go function receives the Corefile text, parses it
with caddyfile.Parse into server blocks whose Tokens map groups the token
stream by directive name (the first token of each line), rewrites the
stream into the JSON-encodable structure, and re-emits it.  The embedding
works on the parsed document directly: grouping the lines of a block by
their head token is exactly the content of the Tokens map, and the
dispenser loop with constructLine reproduces each grouped line unchanged. -/

/-- The canonical first argument of the managed hosts directive
(const hostsPath in pkg/installer/server.go). -/
def hostsPath : String := "/etc/coredns-dir/hosts"

/-- Mirrors ExistStringSlice from pkg/installer/server.go. -/
def ExistStringSlice (val : String) (item : List String) : Bool :=
  item.any (fun v => val == v)

/-- Mirrors ExistInterfaceSlice from pkg/installer/server.go, applied to the
flat item slice of a line.  In Go the nested body element of the slice has
dynamic type of a slice and never compares equal to a string, so only the
head slot and the scalar argument slots are compared against the value. -/
def ExistInterfaceSlice (val : String) (l : Line) : Bool :=
  val == l.head || l.args.any (fun v => val == v)

/-- The rewrite BuildNewCoreFile applies to one line of the hosts directive
group.  Matching the Go code: if the line is the bare item with only the
head token, the canonical path is appended; otherwise the slot at index 1
of the flat item slice is overwritten with the canonical path.  When the
arguments are empty and a body is present, index 1 holds the nested body,
so the body itself is overwritten by the path and lost. -/
def rewriteHostsItem : Line → Line × Bool
  | .mk h args body =>
    if h == "hosts" then
      if ExistInterfaceSlice hostsPath (.mk h args body) then
        (.mk h args body, false)
      else
        match args, body with
        | [], none => (.mk h [hostsPath] none, true)
        | [], some _ => (.mk h [hostsPath] none, true)
        | _ :: rest, b => (.mk h (hostsPath :: rest) b, true)
    else (.mk h args body, false)

/-- The lines of a block that belong to one directive name, in original
relative order: the content of the Tokens map entry for that name. -/
def directiveGroup (ls : List Line) (dir : String) : List Line :=
  ls.filter (fun l => l.head == dir)

/-- The sorted directive-name list BuildNewCoreFile iterates over.  The Go
code allocates the slice with make having length equal to the number of
distinct names, which prefills that many empty strings, then appends every
key of the Tokens map, appends the managed name when absent, and sorts. -/
def blockDirectives (ls : List Line) : List String :=
  let names := (ls.map Line.head).dedup
  let ds := List.replicate names.length "" ++ names
  let ds := if ExistStringSlice "hosts" ds then ds else ds ++ ["hosts"]
  sortStrings ds

/-- The lines BuildNewCoreFile emits for one directive name of a block,
with the flag recording whether the managed stanza was modified.  For the
managed name with an empty group the canonical line is appended; for a
nonempty group every line runs through rewriteHostsItem; any other name is
re-emitted unchanged. -/
def emitDirective (ls : List Line) (dir : String) : List Line × Bool :=
  if dir == "hosts" then
    match directiveGroup ls "hosts" with
    | [] => ([Line.mk "hosts" [hostsPath] none], true)
    | g => (g.map (fun l => (rewriteHostsItem l).1),
            g.any (fun l => (rewriteHostsItem l).2))
  else (directiveGroup ls dir, false)

/-- Normalization of the line list of one block: emit every directive name
in sorted order, collecting the change flag. -/
def normalizeLines (ls : List Line) : List Line × Bool :=
  let dirs := blockDirectives ls
  ((dirs.map (fun d => (emitDirective ls d).1)).flatten,
   dirs.any (fun d => (emitDirective ls d).2))

/-- Document-level content of BuildNewCoreFile from pkg/installer/server.go:
every server block keeps its keys and has its line list normalized, and the
needUpdate flag is the disjunction over all blocks. -/
def BuildNewCoreFileDoc (d : List Block) : List Block × Bool :=
  (d.map (fun b => ⟨b.keys, (normalizeLines b.lines).1⟩),
   d.any (fun b => (normalizeLines b.lines).2))

/-- Decidable form of the managed-stanza invariant for one block: the hosts
directive is present and every hosts line carries the canonical argument. -/
def hostsSatisfied (ls : List Line) : Bool :=
  !(directiveGroup ls "hosts").isEmpty &&
    (directiveGroup ls "hosts").all (fun l => ExistInterfaceSlice hostsPath l)

/-- Decidable form of the managed-stanza invariant for a document. -/
def managedInvariant (d : List Block) : Bool :=
  d.all (fun b => hostsSatisfied b.lines)

/-- Decidable lexicographic sortedness of a string list. -/
def sortedStrings : List String → Bool
  | [] => true
  | [_] => true
  | a :: b :: rest => strLe a b && sortedStrings (b :: rest)

/-- Every line of the list has a nonempty head token.  This is a genuine
extra condition, not implied by well-formedness: an empty quoted token in
the directive position parses to a line with an empty head, and on such a
document the make-prefilled empty strings of blockDirectives re-emit the
empty-named group once per prefilled slot, so normalization grows the
document on every pass while reporting no change. -/
def headsNonempty (ls : List Line) : Bool :=
  ls.all (fun l => l.head != "")

/-! Remote API error model.

Errors of the Kubernetes client are embedded as an inductive type; wrapping
with fmt.Errorf loses the typed error, which the wrapped constructor
reflects: the IsConflict and IsNotFound recognizers do not look inside a
wrapped error, exactly as the Go type assertions fail on a wrapped one. -/

/-- Remote API errors: not-found, version conflict, a wrapped error built
by fmt.Errorf (which hides the typed cause), or any other error. -/
inductive KErr where
  | notFound
  | conflict
  | wrapped (msg : String) (e : KErr)
  | other (msg : String)
deriving DecidableEq

/-- Mirrors errors.IsNotFound: only the bare typed error is recognized. -/
def IsNotFound : KErr → Bool
  | .notFound => true
  | _ => false

/-- Mirrors errors.IsConflict: only the bare typed error is recognized. -/
def IsConflict : KErr → Bool
  | .conflict => true
  | _ => false

/-- Steps bound of retry.DefaultRetry in client-go. -/
def DefaultRetrySteps : Nat := 5

/-- Mirrors retry.RetryOnConflict with retry.DefaultRetry, instrumented
with the number of times the closure body ran.  The body is indexed by the
attempt number; a conflict error retries with the next attempt, any other
error returns immediately, and exhaustion returns the last conflict. -/
def retryOnConflictCountAux (body : Nat → Except KErr Unit) :
    Nat → Nat → Except KErr Unit × Nat
  | 0, i => (.error .conflict, i)
  | fuel + 1, i =>
    match body i with
    | .ok () => (.ok (), i + 1)
    | .error e =>
      if IsConflict e then retryOnConflictCountAux body fuel (i + 1)
      else (.error e, i + 1)

/-- RetryOnConflict together with the number of closure invocations. -/
def RetryOnConflictCount (body : Nat → Except KErr Unit) :
    Except KErr Unit × Nat :=
  retryOnConflictCountAux body DefaultRetrySteps 0

/-- Mirrors retry.RetryOnConflict(retry.DefaultRetry, body). -/
def RetryOnConflict (body : Nat → Except KErr Unit) : Except KErr Unit :=
  (RetryOnConflictCount body).1

/-! Embedded Kubernetes objects, restricted to the fields the repository
reads or writes. -/

/-- An RBAC policy rule (rbacv1.PolicyRule). -/
structure PolicyRule where
  apiGroups : List String
  resources : List String
  verbs : List String
deriving DecidableEq

/-- A cluster role, reduced to its rule list. -/
structure ClusterRole where
  rules : List PolicyRule
deriving DecidableEq

/-- A role-binding subject (rbacv1.Subject). -/
structure Subject where
  kind : String
  name : String
  ns : String
deriving DecidableEq

/-- A role reference (rbacv1.RoleRef). -/
structure RoleRef where
  kind : String
  name : String
deriving DecidableEq

/-- A cluster role binding, reduced to subjects and role reference. -/
structure ClusterRoleBinding where
  subjects : List Subject
  roleRef : RoleRef
deriving DecidableEq

/-- A volume mount (corev1.VolumeMount). -/
structure VolumeMount where
  name : String
  mountPath : String
deriving DecidableEq

/-- A container port (corev1.ContainerPort). -/
structure ContainerPort where
  containerPort : Int
deriving DecidableEq

/-- A container, reduced to the fields ensureDeployment touches. -/
structure Container where
  name : String
  image : String
  args : List String
  ports : List ContainerPort
  volumeMounts : List VolumeMount
deriving DecidableEq

/-- A pod volume; the repository only adds an emptyDir volume. -/
structure Volume where
  name : String
  emptyDir : Bool
deriving DecidableEq

/-- A deployment, reduced to the pod-template fields the installer edits. -/
structure Deployment where
  containers : List Container
  volumes : List Volume
deriving DecidableEq

/-- A service port (corev1.ServicePort). -/
structure ServicePort where
  name : String
  port : Int
deriving DecidableEq

/-- A service, reduced to its port list. -/
structure Service where
  ports : List ServicePort
deriving DecidableEq

/-- A configmap, with its string data as an association list. -/
structure ConfigMap where
  data : List (String × String)
deriving DecidableEq

/-- Map lookup on the configmap data. -/
def cmGet (cm : ConfigMap) (k : String) : Option String :=
  (cm.data.find? (fun p => p.1 == k)).map (fun p => p.2)

/-- Map assignment on the configmap data: replace an existing key or
append a new entry. -/
def cmSet (cm : ConfigMap) (k v : String) : ConfigMap :=
  if cm.data.any (fun p => p.1 == k) then
    ⟨cm.data.map (fun p => if p.1 == k then (p.1, v) else p)⟩
  else ⟨cm.data ++ [(k, v)]⟩

/-- Map deletion on the configmap data. -/
def cmDelete (cm : ConfigMap) (k : String) : ConfigMap :=
  ⟨cm.data.filter (fun p => p.1 != k)⟩

/-- Mirrors ExistPolicyRule from pkg/installer/server.go; reflect.DeepEqual
on the reduced rule is structural equality. -/
def ExistPolicyRule (rule : PolicyRule) (rules : List PolicyRule) : Bool :=
  rules.any (fun val => val == rule)

/-- Mirrors ExistContainerByName from pkg/installer/server.go. -/
def ExistContainerByName (name : String) (containers : List Container) : Bool :=
  containers.any (fun val => val.name == name)

/-- Mirrors ExistVolumeMountsByName from pkg/installer/server.go. -/
def ExistVolumeMountsByName (name : String) (volumeMounts : List VolumeMount) : Bool :=
  volumeMounts.any (fun val => val.name == name)

/-- Mirrors ExistVolumeMsByName from pkg/installer/server.go. -/
def ExistVolumeMsByName (name : String) (volumes : List Volume) : Bool :=
  volumes.any (fun val => val.name == name)

/-- Mirrors ExistPortsByPort from pkg/installer/server.go. -/
def ExistPortsByPort (port : Int) (ports : List ServicePort) : Bool :=
  ports.any (fun val => val.port == port)

/-! Reconciliation call sites.

Each retry closure interacts with the remote API by fetching an object and
possibly writing one back.  The embedding abstracts the remote side as one
record per attempt describing what the fetch returns and what an update
call returns, indexed by the attempt number, which is faithful to the
control flow of the Go closures. -/

/-- Remote behavior of one cluster-role attempt. -/
structure RoleAttempt where
  fetch : Except KErr ClusterRole
  update : ClusterRole → Except KErr Unit

/-- Remote behavior of one deployment attempt. -/
structure DeployAttempt where
  fetch : Except KErr Deployment
  update : Deployment → Except KErr Unit

/-- Remote behavior of one service attempt: the Go code fetches the
service under the coredns name and, on any error, falls back to fetching
the kube-dns service. -/
structure ServiceAttempt where
  fetchPrimary : Except KErr Service
  fetchKubeDns : Except KErr Service
  update : Service → Except KErr Unit

/-- Remote behavior of one configmap attempt.  The update result carries
the object the API returns for a successful write, which SetData and
DeleteData inspect; refetch is a subsequent get of the same object, used
only by the specification-side façade model. -/
structure CMAttempt where
  fetch : Except KErr ConfigMap
  update : ConfigMap → Except KErr ConfigMap
  refetch : Except KErr ConfigMap

/-- The clusterRoleName scan of ensureClusterrole: the last binding subject
matching the service account wins, exactly as the Go double loop keeps
overwriting the variable. -/
def findClusterRoleName (serviceAccountName saNamespace : String)
    (bindings : List ClusterRoleBinding) : String :=
  bindings.foldl (fun acc item =>
    item.subjects.foldl (fun acc2 subject =>
      if subject.name == serviceAccountName && subject.kind == "ServiceAccount"
          && subject.ns == saNamespace then
        (if item.roleRef.kind == "ClusterRole" then item.roleRef.name else acc2)
      else acc2) acc) ""

/-- The retry closure of ensureClusterrole from pkg/installer/server.go. -/
def ensureClusterroleBody (att : RoleAttempt) : Except KErr Unit :=
  match att.fetch with
  | .error getErr =>
    .error (.wrapped "failed to get latest version of Cluster" getErr)
  | .ok result =>
    let addRule : PolicyRule := ⟨[""], ["configmaps"], ["*"]⟩
    if !ExistPolicyRule addRule result.rules then
      att.update ⟨result.rules ++ [addRule]⟩
    else .ok ()

/-- Mirrors ensureClusterrole from pkg/installer/server.go: resolve the
service-account name, scan the bindings for the cluster role, then run the
retry loop. -/
def ensureClusterrole (saName deprecatedSAName ns : String)
    (bindings : Except KErr (List ClusterRoleBinding))
    (atts : Nat → RoleAttempt) : Except KErr Unit :=
  let serviceAccountName := if saName != "" then saName else deprecatedSAName
  if serviceAccountName == "" then
    .error (.other "the serviceAccountName can not be empty")
  else
    match bindings with
    | .error e => .error e
    | .ok bl =>
      if findClusterRoleName serviceAccountName ns bl == "" then
        .error (.other "the clusterRoleName can not be empty")
      else RetryOnConflict (fun i => ensureClusterroleBody (atts i))

/-- The retry closure of ensureDeployment from pkg/installer/server.go. -/
def ensureDeploymentBody (serverVersion kubeconfig : String) (port : Int)
    (att : DeployAttempt) : Except KErr Unit :=
  match att.fetch with
  | .error getErr =>
    .error (.wrapped "failed to get latest version of Deployment" getErr)
  | .ok result =>
    let volumeName := "shared-data"
    let volumeMountItem : VolumeMount := ⟨volumeName, "/etc/coredns-dir"⟩
    let serverContainer : Container :=
      ⟨"coredns-hosts-server",
       "docker.io/devincd/coredns-hosts-server:" ++ serverVersion,
       ["--kubeconfig", kubeconfig, "--port", toString port],
       [⟨port⟩], []⟩
    let u1 := !ExistContainerByName "coredns-hosts-server" result.containers
    let cs := if u1 then result.containers ++ [serverContainer]
              else result.containers
    let u2 := cs.any (fun c => !ExistVolumeMountsByName volumeName c.volumeMounts)
    let cs2 := cs.map (fun c =>
      if !ExistVolumeMountsByName volumeName c.volumeMounts then
        { c with volumeMounts := c.volumeMounts ++ [volumeMountItem] }
      else c)
    let u3 := !ExistVolumeMsByName volumeName result.volumes
    let vs := if u3 then result.volumes ++ [⟨volumeName, true⟩]
              else result.volumes
    if u1 || u2 || u3 then att.update ⟨cs2, vs⟩ else .ok ()

/-- Mirrors ensureDeployment from pkg/installer/server.go. -/
def ensureDeployment (serverVersion kubeconfig : String) (port : Int)
    (atts : Nat → DeployAttempt) : Except KErr Unit :=
  RetryOnConflict (fun i => ensureDeploymentBody serverVersion kubeconfig port (atts i))

/-- The retry closure of ensureService from pkg/installer/server.go: on any
error of the primary fetch the code fetches the kube-dns service instead,
and only a failure of that fallback is reported. -/
def ensureServiceBody (port : Int) (att : ServiceAttempt) : Except KErr Unit :=
  let fetched : Except KErr Service :=
    match att.fetchPrimary with
    | .ok s => .ok s
    | .error _ =>
      match att.fetchKubeDns with
      | .ok s => .ok s
      | .error getErr =>
        .error (.wrapped "failed to get latest version of Service" getErr)
  match fetched with
  | .error e => .error e
  | .ok result =>
    if !ExistPortsByPort port result.ports then
      att.update ⟨result.ports ++ [⟨"apis", port⟩]⟩
    else .ok ()

/-- Mirrors ensureService from pkg/installer/server.go. -/
def ensureService (port : Int) (atts : Nat → ServiceAttempt) : Except KErr Unit :=
  RetryOnConflict (fun i => ensureServiceBody port (atts i))

/-- Mirrors initConfigmap of the record controller in pkg/server: a
not-found on the fetch creates the empty configmap, any other fetch error
and any create error propagate, and an existing object is left alone. -/
def initConfigmap (fetch : Except KErr ConfigMap)
    (create : ConfigMap → Except KErr ConfigMap) : Except KErr Unit :=
  match fetch with
  | .error e =>
    if IsNotFound e then
      match create ⟨[]⟩ with
      | .ok _ => .ok ()
      | .error e2 => .error e2
    else .error e
  | .ok _ => .ok ()

/-- The retry closure of SetData in pkg/server: fetch, equality
short-circuit, write, then inspect the object the update call returned
and fail when the written mapping is not present in it. -/
def SetDataBody (domain ip : String) (att : CMAttempt) : Except KErr Unit :=
  match att.fetch with
  | .error getErr =>
    .error (.wrapped "failed to get latest version of Configmap" getErr)
  | .ok cm =>
    if (match cmGet cm domain with
        | some val => val == ip
        | none => false) then .ok ()
    else
      match att.update (cmSet cm domain ip) with
      | .error updateErr => .error updateErr
      | .ok newCm =>
        if (cmGet newCm domain).getD "" != ip then
          .error (.other "failed to setData and updateCm value is not right")
        else .ok ()

/-- Mirrors SetData of the record controller in pkg/server. -/
def SetData (domain ip : String) (atts : Nat → CMAttempt) : Except KErr Unit :=
  RetryOnConflict (fun i => SetDataBody domain ip (atts i))

/-- Modelled from the spec: the Record Store façade as §4.5 words it, where
after a successful write the façade re-fetches the object and asserts the
value is actually present; the Go code instead inspects the object the
update call returned, so this definition exists only to compare the
specification text against the source-derived SetDataBody. -/
def SetDataSpecBody (domain ip : String) (att : CMAttempt) : Except KErr Unit :=
  match att.fetch with
  | .error getErr =>
    .error (.wrapped "failed to get latest version of Configmap" getErr)
  | .ok cm =>
    if (match cmGet cm domain with
        | some val => val == ip
        | none => false) then .ok ()
    else
      match att.update (cmSet cm domain ip) with
      | .error updateErr => .error updateErr
      | .ok _ =>
        match att.refetch with
        | .error e => .error e
        | .ok cmR =>
          if (cmGet cmR domain).getD "" != ip then
            .error (.other "IntegrityError: value not present after write")
          else .ok ()

/-- The retry closure of DeleteData in pkg/server. -/
def DeleteDataBody (domain : String) (att : CMAttempt) : Except KErr Unit :=
  match att.fetch with
  | .error getErr =>
    .error (.wrapped "failed to get latest version of Configmap" getErr)
  | .ok cm =>
    if cm.data.isEmpty then .ok ()
    else if (cmGet cm domain).isNone then .ok ()
    else
      match att.update (cmDelete cm domain) with
      | .error updateErr => .error updateErr
      | .ok newCm =>
        if newCm.data.isEmpty then .ok ()
        else
          match cmGet newCm domain with
          | some _ => .error (.other "failed to DeleteData and updateCm val is exist")
          | none => .ok ()

/-- Mirrors DeleteData of the record controller in pkg/server. -/
def DeleteData (domain : String) (atts : Nat → CMAttempt) : Except KErr Unit :=
  RetryOnConflict (fun i => DeleteDataBody domain (atts i))

/-! Change-feed cache sync. -/

/-- Generic character-list splitting on a separator, keeping empty pieces. -/
def splitCh (sep : Char) : List Char → List (List Char)
  | [] => [[]]
  | c :: cs =>
    if c = sep then [] :: splitCh sep cs
    else
      match splitCh sep cs with
      | [] => [[c]]
      | l :: ls => (c :: l) :: ls

/-- Mirrors cache.SplitMetaNamespaceKey: one part is a bare name, two parts
are namespace and name, anything else is an error. -/
def SplitMetaNamespaceKey (key : String) : Except KErr (String × String) :=
  match (splitCh '/' key.data).map (fun l => String.mk l) with
  | [name] => .ok ("", name)
  | [ns, name] => .ok (ns, name)
  | _ => .error (.other "unexpected key format")

/-- The remote configmap store keyed by namespace and name, together with
the sink file content the sync writes. -/
structure SyncState where
  configmaps : List ((String × String) × ConfigMap)
  sink : String

/-- Fresh fetch of a configmap by identity, as the sync performs it. -/
def getConfigMap (st : SyncState) (ns name : String) : Except KErr ConfigMap :=
  match st.configmaps.find? (fun p => p.1 == (ns, name)) with
  | some p => .ok p.2
  | none => .error .notFound

/-- The flattened sink content: one line per entry, value first, then a
space, then the key, then a newline, accumulated exactly as the Go loop
concatenates fmt.Sprintf results. -/
def sinkContent (cm : ConfigMap) : String :=
  (cm.data.map (fun kv => kv.2 ++ " " ++ kv.1 ++ "\n")).foldl (· ++ ·) ""

/-- Mirrors syncConfigmap of the configmap controller in pkg/server:
split the key, fetch the object fresh, treat not-found as a clean no-op,
and otherwise overwrite the sink with the flattened content. -/
def syncConfigmap (st : SyncState) (key : String) : Except KErr SyncState :=
  match SplitMetaNamespaceKey key with
  | .error e => .error e
  | .ok (ns, name) =>
    match getConfigMap st ns name with
    | .error e => if IsNotFound e then .ok st else .error e
    | .ok cm => .ok { st with sink := sinkContent cm }

/-! Work-queue worker loop. -/

/-- The rate-limited work queue, reduced to its pending keys and its
shut-down flag. -/
structure WorkQueue where
  items : List String
  shutdown : Bool

/-- Result of workqueue Get: an item, the quit signal once the queue is
shut down and drained, or blocking on an open empty queue. -/
inductive GetResult where
  | gotItem (key : String) (rest : List String)
  | quit
  | blocked

/-- Mirrors workqueue Get on the reduced queue. -/
def queueGet : WorkQueue → GetResult
  | ⟨[], true⟩ => .quit
  | ⟨[], false⟩ => .blocked
  | ⟨k :: rest, _⟩ => .gotItem k rest

/-- Observable fate of the worker loop within a given number of
iterations. -/
inductive WorkerOutcome where
  | terminated
  | blocked
  | spinning

/-- Mirrors the worker method of the configmap controller in pkg/server:
the body of the for loop is an anonymous closure; on quit the closure
returns, which only ends the closure, so the enclosing for loop runs Get
again.  A failed sync requeues the key, a successful one drops it.  The
loop has no path that produces the terminated outcome, because the Go
worker has no statement that leaves the for loop. -/
def workerLoop (syncOk : String → Bool) : Nat → WorkQueue → WorkerOutcome
  | 0, _ => .spinning
  | fuel + 1, q =>
    match queueGet q with
    | .quit => workerLoop syncOk fuel q
    | .blocked => .blocked
    | .gotItem k rest =>
      if syncOk k then workerLoop syncOk fuel ⟨rest, q.shutdown⟩
      else workerLoop syncOk fuel ⟨rest ++ [k], q.shutdown⟩

/-! Directive parser and serializer.

The concrete lexer and printer live in the caddyfile dependency, outside
this repository, so they are modelled from the specification (§4.1):
tokens split on whitespace, quoted tokens retain internal whitespace, an
opening brace at the end of a line opens a body bound to that line, a
matching closing brace on a line of its own closes it, nesting depth is
unbounded, and malformed input is a ParseError fatal to the call. -/

/-- Parse errors of the modelled parser. -/
inductive PErr where
  | quoteInToken
  | unterminatedQuote
  | noSpaceAfterQuote
  | badLine
  | unclosedBlock
deriving DecidableEq

/-- The opening-brace token. -/
def openBraceTok : String := "\x7b"

/-- The closing-brace token. -/
def closeBraceTok : String := "\x7d"

/-- Whitespace characters that separate tokens within a line. -/
def isWSChar (c : Char) : Bool := c == ' ' || c == '\t' || c == '\r'

/-- Tokenizer modes: between tokens, inside a bare token, inside quotes,
and just after a closing quote (which must be followed by whitespace or
the end of the line). -/
inductive TMode where
  | ws
  | bare
  | quoted
  | afterq

/-- Modelled from the spec: the whitespace tokenizer for one physical line
of the directive document.  Bare tokens end at whitespace and may not
contain a quote character; a quoted token retains internal whitespace and
must be followed by whitespace or the end of the line. -/
def tokenizeAux : TMode → List Char → List String → List Char → Except PErr (List String)
  | .ws, _, toks, [] => .ok toks.reverse
  | .ws, _, toks, c :: cs =>
    if isWSChar c then tokenizeAux .ws [] toks cs
    else if c = '"' then tokenizeAux .quoted [] toks cs
    else tokenizeAux .bare [c] toks cs
  | .bare, acc, toks, [] => .ok (toks.reverse ++ [String.mk acc.reverse])
  | .bare, acc, toks, c :: cs =>
    if isWSChar c then tokenizeAux .ws [] (String.mk acc.reverse :: toks) cs
    else if c = '"' then .error .quoteInToken
    else tokenizeAux .bare (c :: acc) toks cs
  | .quoted, _, _, [] => .error .unterminatedQuote
  | .quoted, acc, toks, c :: cs =>
    if c = '"' then tokenizeAux .afterq [] (String.mk acc.reverse :: toks) cs
    else tokenizeAux .quoted (c :: acc) toks cs
  | .afterq, _, toks, [] => .ok toks.reverse
  | .afterq, _, toks, c :: cs =>
    if isWSChar c then tokenizeAux .ws [] toks cs
    else .error .noSpaceAfterQuote

/-- Modelled from the spec: tokenize one physical line. -/
def tokenizeLine (cs : List Char) : Except PErr (List String) :=
  tokenizeAux .ws [] [] cs

/-- Does a token list contain a brace token (which may not occur in an
argument position)? -/
def hasBrace (ts : List String) : Bool :=
  ts.any (fun t => t == openBraceTok || t == closeBraceTok)

/-- One open parent line on the parser stack: its head, its arguments, and
the lines of the enclosing level accumulated before it opened. -/
structure Frame where
  fhead : String
  fargs : List String
  saved : List Line

/-- Parser state: finished blocks, and the open server block if any, as
its keys, the stack of open parent lines, and the lines accumulated at the
current depth. -/
structure PState where
  blocks : List Block
  cur : Option (List String × List Frame × List Line)

/-- Modelled from the spec: process one token line of the document.  At the
top level a nonempty line must be a block header (keys then an opening
brace).  Inside a block, a closing brace on its own closes the innermost
body or the block, a trailing opening brace opens the body of a new line,
and any other brace placement is malformed. -/
def stepTL : PState → List String → Except PErr PState
  | st, [] => .ok st
  | ⟨blocks, none⟩, t :: ts =>
    if (t :: ts).getLast? == some openBraceTok then
      if (t :: ts).dropLast.isEmpty then .error .badLine
      else if hasBrace (t :: ts).dropLast then .error .badLine
      else .ok ⟨blocks, some ((t :: ts).dropLast, [], [])⟩
    else .error .badLine
  | ⟨blocks, some (keys, stack, acc)⟩, t :: ts =>
    if t == closeBraceTok then
      if ts.isEmpty then
        match stack with
        | [] => .ok ⟨blocks ++ [⟨keys, acc⟩], none⟩
        | fr :: stack2 =>
          .ok ⟨blocks,
               some (keys, stack2,
                     fr.saved ++ [Line.mk fr.fhead fr.fargs (some (Lines.ofList acc))])⟩
      else .error .badLine
    else if t == openBraceTok then .error .badLine
    else if ts.getLast? == some openBraceTok then
      if hasBrace ts.dropLast then .error .badLine
      else .ok ⟨blocks, some (keys, ⟨t, ts.dropLast, acc⟩ :: stack, [])⟩
    else if hasBrace ts then .error .badLine
    else .ok ⟨blocks, some (keys, stack, acc ++ [Line.mk t ts none])⟩

/-- Modelled from the spec: run the parser over the token lines. -/
def runTL : List (List String) → PState → Except PErr (List Block)
  | [], st =>
    match st.cur with
    | none => .ok st.blocks
    | some _ => .error .unclosedBlock
  | tl :: rest, st =>
    match stepTL st tl with
    | .error e => .error e
    | .ok st2 => runTL rest st2

/-- Modelled from the spec: parse a directive document into blocks. -/
def parse (s : String) : Except PErr (List Block) := do
  let tls ← (splitCh '\n' s.data).mapM tokenizeLine
  runTL tls ⟨[], none⟩

/-- Does a token need quoting when re-emitted?  Empty tokens and tokens
containing whitespace are emitted quoted. -/
def needsQuote (t : String) : Bool :=
  t.data.isEmpty || t.data.any (fun c => isWSChar c)

/-- Modelled from the spec: render one token, followed by one separating
space; byte formatting of the output is unconstrained by the spec. -/
def renderTok (t : String) : List Char :=
  if needsQuote t then '"' :: (t.data ++ ['"', ' ']) else t.data ++ [' ']

/-- Render one token line. -/
def renderTokLine (toks : List String) : List Char :=
  (toks.map renderTok).flatten

/-- Render token lines into the document text, one physical line each. -/
def renderTL (tls : List (List String)) : List Char :=
  (tls.map (fun tl => renderTokLine tl ++ ['\n'])).flatten

mutual
/-- Token lines for one directive line: a simple line is one token line; a
line with a body is its header line with a trailing opening brace, the body
lines, and a closing-brace line. -/
def encodeLine : Line → List (List String)
  | .mk h args none => [h :: args]
  | .mk h args (some b) => ((h :: args) ++ [openBraceTok]) :: (encodeLinesB b ++ [[closeBraceTok]])
/-- Token lines for a nested body. -/
def encodeLinesB : Lines → List (List String)
  | .nil => []
  | .cons l rest => encodeLine l ++ encodeLinesB rest
end

/-- Token lines for the line list of a block body. -/
def encodeTop (ls : List Line) : List (List String) :=
  (ls.map encodeLine).flatten

/-- Token lines for a whole document: each block is its key line with a
trailing opening brace, its body lines, and a closing-brace line. -/
def encodeDoc (d : List Block) : List (List String) :=
  (d.map (fun b => ((b.keys ++ [openBraceTok]) :: (encodeTop b.lines ++ [[closeBraceTok]])))).flatten

/-- Modelled from the spec: serialize a document to text. -/
def serialize (d : List Block) : String :=
  String.mk (renderTL (encodeDoc d))

/-- Well-formedness of an emitted token: no quote character, no newline,
and not a bare brace.  Every token the parser produces satisfies this. -/
def wfTok (t : String) : Bool :=
  !(t.data.contains '"') && !(t.data.contains '\n') && t != openBraceTok && t != closeBraceTok

mutual
/-- Well-formedness of a line: every token well formed, recursively. -/
def wfLine : Line → Bool
  | .mk h args none => wfTok h && args.all wfTok
  | .mk h args (some b) => wfTok h && args.all wfTok && wfLines b
/-- Well-formedness of a nested body. -/
def wfLines : Lines → Bool
  | .nil => true
  | .cons l rest => wfLine l && wfLines rest
end

/-- Well-formedness of a block: nonempty well-formed keys and well-formed
lines. -/
def wfBlock (b : Block) : Bool :=
  !b.keys.isEmpty && b.keys.all wfTok && b.lines.all wfLine

/-- Well-formedness of a document. -/
def wfDoc (d : List Block) : Bool :=
  d.all wfBlock

/-- Renderability of a token: no quote character and no newline in it.
Every token the tokenizer produces satisfies this, and every such token
round-trips through renderTok and the tokenizer. -/
def rTok (t : String) : Bool :=
  !(t.data.contains '"') && !(t.data.contains '\n')

/-- Well-formedness of a parser stack frame. -/
def wfFrame (fr : Frame) : Bool :=
  wfTok fr.fhead && fr.fargs.all wfTok && fr.saved.all wfLine

/-- Well-formedness of the open-block component of the parser state. -/
def wfCur : Option (List String × List Frame × List Line) → Bool
  | none => true
  | some (keys, stack, acc) =>
    !keys.isEmpty && keys.all wfTok && stack.all wfFrame && acc.all wfLine

/-- Well-formedness of the parser state. -/
def wfState (st : PState) : Bool :=
  st.blocks.all wfBlock && wfCur st.cur

/-- The text-level BuildNewCoreFile from pkg/installer/server.go: parse the
Corefile, normalize the document, serialize it back, and report whether the
managed stanza changed. -/
def BuildNewCoreFile (s : String) : Except PErr (String × Bool) :=
  match parse s with
  | .error e => .error e
  | .ok d =>
    let r := BuildNewCoreFileDoc d
    .ok (serialize r.1, r.2)

/-- Example document whose directives are not in lexicographic order while
the managed hosts stanza is already canonical. -/
def exampleUnsortedDoc : List Block :=
  [⟨["."], [Line.mk "whoami" [] none, Line.mk "errors" [] none,
            Line.mk "hosts" [hostsPath] none]⟩]

/-- Example document of Scenario B in §8: the managed directive carries
only a nested body with a fallthrough line. -/
def exampleHostsBodyDoc : List Block :=
  [⟨["."], [Line.mk "hosts" []
      (some (.cons (.mk "fallthrough" [] none) .nil))]⟩]

/-- The document Scenario B claims as the normalized output: canonical
argument injected in front of the preserved body. -/
def exampleHostsBodyKeptDoc : List Block :=
  [⟨["."], [Line.mk "hosts" [hostsPath]
      (some (.cons (.mk "fallthrough" [] none) .nil))]⟩]

/-- Example document with an empty directive name, as produced by parsing
a line consisting of one empty quoted token.  It is well formed for the
parser, yet normalization duplicates the empty-named line on every pass. -/
def exampleEmptyHeadDoc : List Block :=
  [⟨[".:53"], [Line.mk "" [] none]⟩]

def exampleSortedDoc : List Block :=
  [⟨["."], [Line.mk "errors" [] none, Line.mk "hosts" [hostsPath] none,
            Line.mk "whoami" [] none]⟩]
def SetDataSpec (domain ip : String) (atts : Nat → CMAttempt) : Except KErr Unit :=
  RetryOnConflict (fun i => SetDataSpecBody domain ip (atts i))
def ensureCoreDNSConfigmap (initialFetch : Except KErr ConfigMap)
    (atts : Nat → CMAttempt) : Except KErr Unit :=
  match initialFetch with
  | .error e => .error e
  | .ok cm =>
    match BuildNewCoreFile ((cmGet cm "Corefile").getD "") with
    | .error _ => .error (.other "failed to parse the Corefile")
    | .ok (corefile, needUpdate) =>
      if needUpdate then
        RetryOnConflict (fun i =>
          match (atts i).fetch with
          | .error getErr =>
            .error (.wrapped "failed to get latest version of ConfigMap" getErr)
          | .ok result =>
            match (atts i).update (cmSet result "Corefile" corefile) with
            | .ok _ => .ok ()
            | .error e => .error e)
      else .ok ()
def exampleServiceAtts : Nat → ServiceAttempt := fun _ =>
  ⟨.error .notFound, .ok ⟨[⟨"apis", 9080⟩]⟩, fun _ => .ok ()⟩
def exampleCMAtts : Nat → CMAttempt := fun _ =>
  ⟨.ok ⟨[]⟩, fun cm => .ok cm, .ok ⟨[]⟩⟩
def exampleBadSetAtts : Nat → CMAttempt := fun _ =>
  ⟨.ok ⟨[]⟩, fun _ => .ok ⟨[]⟩, .ok ⟨[]⟩⟩
def exampleBadDeleteAtts : Nat → CMAttempt := fun _ =>
  ⟨.ok ⟨[("d.example.com", "1.1.1.1")]⟩,
   fun _ => .ok ⟨[("d.example.com", "1.1.1.1")]⟩,
   .ok ⟨[]⟩⟩
def exampleNotFoundRoleAtts : Nat → RoleAttempt := fun _ =>
  ⟨.error .notFound, fun _ => .ok ()⟩
def exampleNotFoundDeployAtts : Nat → DeployAttempt := fun _ =>
  ⟨.error .notFound, fun _ => .ok ()⟩
def exampleNotFoundCMAtts : Nat → CMAttempt := fun _ =>
  ⟨.error .notFound, fun cm => .ok cm, .error .notFound⟩
def exampleNotFoundServiceAtts : Nat → ServiceAttempt := fun _ =>
  ⟨.error .notFound, .error .notFound, fun _ => .ok ()⟩
def exampleBinding : ClusterRoleBinding :=
  ⟨[⟨"ServiceAccount", "coredns", "kube-system"⟩], ⟨"ClusterRole", "system:coredns"⟩⟩
def exampleSyncState : SyncState :=
  ⟨[(("kube-system", "coredns-hosts-api"), ⟨[("a.example.com", "1.2.3.4")]⟩)], "old"⟩

/-! Theorems. -/

theorem charListLe_refl : ∀ l : List Char, charListLe l l = true
  | [] => rfl
  | c :: cs => by simp [charListLe, charListLe_refl cs]

theorem charListLe_total :
    ∀ l₁ l₂ : List Char, charListLe l₁ l₂ = true ∨ charListLe l₂ l₁ = true
  | [], _ => Or.inl rfl
  | _ :: _, [] => Or.inr rfl
  | a :: as, b :: bs => by
    by_cases hab : a = b
    · subst hab
      rcases charListLe_total as bs with h | h
      · exact Or.inl (by simp [charListLe, h])
      · exact Or.inr (by simp [charListLe, h])
    · rcases lt_or_gt_of_ne hab with h | h
      · exact Or.inl (by simp [charListLe, hab, h])
      · exact Or.inr (by simp [charListLe, Ne.symm hab, h])

theorem charListLe_trans :
    ∀ l₁ l₂ l₃ : List Char, charListLe l₁ l₂ = true → charListLe l₂ l₃ = true →
      charListLe l₁ l₃ = true
  | [], _, _, _, _ => rfl
  | _ :: _, [], _, h₁, _ => by simp [charListLe] at h₁
  | _ :: _, _ :: _, [], _, h₂ => by simp [charListLe] at h₂
  | a :: as, b :: bs, c :: cs, h₁, h₂ => by
    by_cases hab : a = b <;> by_cases hbc : b = c
    · subst hab; subst hbc
      simp only [charListLe, if_pos rfl] at h₁ h₂ ⊢
      exact charListLe_trans as bs cs h₁ h₂
    · subst hab
      simp only [charListLe, if_neg hbc] at h₂
      simp only [charListLe, if_neg hbc]
      exact h₂
    · subst hbc
      simp only [charListLe, if_neg hab] at h₁
      simp only [charListLe, if_neg hab]
      exact h₁
    · simp only [charListLe, if_neg hab] at h₁
      simp only [charListLe, if_neg hbc] at h₂
      have hac : a < c := lt_trans (of_decide_eq_true h₁) (of_decide_eq_true h₂)
      have hne : a ≠ c := ne_of_lt hac
      simp [charListLe, if_neg hne, hac]

theorem charListLe_antisymm :
    ∀ l₁ l₂ : List Char, charListLe l₁ l₂ = true → charListLe l₂ l₁ = true →
      l₁ = l₂
  | [], [], _, _ => rfl
  | _ :: _, [], h₁, _ => by simp [charListLe] at h₁
  | [], _ :: _, _, h₂ => by simp [charListLe] at h₂
  | a :: as, b :: bs, h₁, h₂ => by
    by_cases hab : a = b
    · subst hab
      simp only [charListLe, if_pos rfl] at h₁ h₂
      exact congrArg (a :: ·) (charListLe_antisymm as bs h₁ h₂)
    · simp only [charListLe, if_neg hab] at h₁
      simp only [charListLe, if_neg (Ne.symm hab)] at h₂
      exact absurd (of_decide_eq_true h₂) (lt_asymm (of_decide_eq_true h₁))

theorem strData_inj : ∀ {a b : String}, a.data = b.data → a = b := by
  intro a b h
  cases a
  cases b
  exact congrArg String.mk h

theorem strLeP_refl (a : String) : StrLeP a a :=
  charListLe_refl a.data

theorem strLeP_total (a b : String) : StrLeP a b ∨ StrLeP b a :=
  charListLe_total a.data b.data

theorem strLeP_trans (a b c : String) : StrLeP a b → StrLeP b c → StrLeP a c :=
  charListLe_trans a.data b.data c.data

theorem strLeP_antisymm (a b : String) : StrLeP a b → StrLeP b a → a = b :=
  fun h₁ h₂ => strData_inj (charListLe_antisymm a.data b.data h₁ h₂)

theorem sortStrings_sorted (l : List String) :
    List.Sorted StrLeP (sortStrings l) :=
  @List.sorted_insertionSort String StrLeP _ ⟨strLeP_total⟩
    ⟨strLeP_trans⟩ l

theorem sortStrings_perm (l : List String) : (sortStrings l).Perm l :=
  List.perm_insertionSort StrLeP l

theorem sortStrings_eq_of_sorted {l m : List String}
    (hp : l.Perm m) (hm : List.Sorted StrLeP m) : sortStrings l = m :=
  @List.eq_of_perm_of_sorted String StrLeP ⟨fun a b => strLeP_antisymm a b⟩
    _ _ ((sortStrings_perm l).trans hp) (sortStrings_sorted l) hm

theorem rewriteHostsItem_head (l : Line) :
    ((rewriteHostsItem l).1).head = l.head := by
  rcases l with ⟨h, args, body⟩
  simp only [rewriteHostsItem]
  split
  · split
    · rfl
    · rcases args with _ | ⟨a, rest⟩ <;> rcases body with _ | b <;> rfl
  · rfl

theorem rewriteHostsItem_of_exist {l : Line}
    (hx : ExistInterfaceSlice hostsPath l = true) :
    rewriteHostsItem l = (l, false) := by
  rcases l with ⟨h, args, body⟩
  simp only [rewriteHostsItem]
  split
  · simp [hx]
  · rfl

theorem rewriteHostsItem_flag {l : Line} (hh : l.head = "hosts") :
    (rewriteHostsItem l).2 = !ExistInterfaceSlice hostsPath l := by
  rcases l with ⟨h, args, body⟩
  have hh2 : h = "hosts" := hh
  subst hh2
  simp only [rewriteHostsItem]
  split
  · split
    · simp_all
    · rcases args with _ | ⟨a, rest⟩ <;> rcases body with _ | b <;> simp_all
  · simp_all

theorem rewriteHostsItem_exist {l : Line} (hh : l.head = "hosts") :
    ExistInterfaceSlice hostsPath ((rewriteHostsItem l).1) = true := by
  rcases l with ⟨h, args, body⟩
  have hh2 : h = "hosts" := hh
  subst hh2
  simp only [rewriteHostsItem]
  split
  · split
    · assumption
    · rcases args with _ | ⟨a, rest⟩ <;> rcases body with _ | b <;>
        simp [ExistInterfaceSlice, Line.args, Line.head]
  · simp_all

theorem ExistStringSlice_iff (v : String) (l : List String) :
    ExistStringSlice v l = true ↔ v ∈ l := by
  simp only [ExistStringSlice, List.any_eq_true, beq_iff_eq]
  exact ⟨fun ⟨x, hx, he⟩ => he ▸ hx, fun hv => ⟨v, hv, rfl⟩⟩

theorem head_of_mem_directiveGroup {ls : List Line} {d : String} {l : Line}
    (h : l ∈ directiveGroup ls d) : l.head = d := by
  have := List.of_mem_filter h
  simpa using this

theorem mem_of_mem_directiveGroup {ls : List Line} {d : String} {l : Line}
    (h : l ∈ directiveGroup ls d) : l ∈ ls :=
  List.mem_of_mem_filter h

theorem emitDirective_ne_hosts {d : String} (hd : d ≠ "hosts") (ls : List Line) :
    emitDirective ls d = (directiveGroup ls d, false) := by
  simp [emitDirective, hd]

theorem hosts_mem_blockDirectives (ls : List Line) :
    "hosts" ∈ blockDirectives ls := by
  unfold blockDirectives
  rw [(sortStrings_perm _).mem_iff]
  split
  · next hE => exact (ExistStringSlice_iff _ _).1 hE
  · exact List.mem_append_right _ (List.mem_singleton_self _)

theorem emitDirective_hosts_flag (ls : List Line) :
    (emitDirective ls "hosts").2 = true ↔
      (directiveGroup ls "hosts" = [] ∨
        ∃ l ∈ directiveGroup ls "hosts", ExistInterfaceSlice hostsPath l = false) := by
  unfold emitDirective
  rw [if_pos (by simp)]
  cases hG : directiveGroup ls "hosts" with
  | nil => simp
  | cons g gs =>
    simp only [List.any_eq_true]
    constructor
    · rintro ⟨l, hl, h2⟩
      have hmem : l ∈ directiveGroup ls "hosts" := by rw [hG]; exact hl
      have hh : l.head = "hosts" := head_of_mem_directiveGroup hmem
      rw [rewriteHostsItem_flag hh] at h2
      exact Or.inr ⟨l, hl, by simpa using h2⟩
    · rintro (h | ⟨l, hl, hx⟩)
      · exact absurd h (List.cons_ne_nil _ _)
      · have hmem : l ∈ directiveGroup ls "hosts" := by rw [hG]; exact hl
        have hh : l.head = "hosts" := head_of_mem_directiveGroup hmem
        exact ⟨l, hl, by rw [rewriteHostsItem_flag hh, hx]; rfl⟩

theorem normalizeLines_changed_iff (ls : List Line) :
    (normalizeLines ls).2 = true ↔
      (directiveGroup ls "hosts" = [] ∨
        ∃ l ∈ directiveGroup ls "hosts", ExistInterfaceSlice hostsPath l = false) := by
  unfold normalizeLines
  simp only [List.any_eq_true]
  constructor
  · rintro ⟨d, hd, hflag⟩
    by_cases hdh : d = "hosts"
    · subst hdh
      exact (emitDirective_hosts_flag ls).1 hflag
    · rw [emitDirective_ne_hosts hdh] at hflag
      cases hflag
  · intro h
    exact ⟨"hosts", hosts_mem_blockDirectives ls,
      (emitDirective_hosts_flag ls).2 h⟩

theorem strLeP_bot (b : String) : StrLeP "" b := by
  have h : ("" : String).data = [] := rfl
  unfold StrLeP strLe
  rw [h]
  rfl

theorem pairwise_of_const {α : Type} {r : α → α → Prop} {d : α}
    (hr : r d d) : ∀ {xs : List α}, (∀ x ∈ xs, x = d) → List.Pairwise r xs := by
  intro xs
  induction xs with
  | nil => intro _; exact List.Pairwise.nil
  | cons x rest ih =>
    intro hx
    have hxd : x = d := hx x (List.mem_cons_self _ _)
    refine List.Pairwise.cons ?_ (ih fun y hy => hx y (List.mem_cons_of_mem _ hy))
    intro y hy
    have hyd : y = d := hx y (List.mem_cons_of_mem _ hy)
    rw [hxd, hyd]
    exact hr

theorem sorted_filter_split (n₀ : String) :
    ∀ ls : List Line, List.Sorted StrLeP (ls.map Line.head) →
      (∀ l ∈ ls, StrLeP n₀ l.head) →
      ls = ls.filter (fun l => l.head == n₀) ++ ls.filter (fun l => l.head != n₀)
  | [], _, _ => rfl
  | l :: rest, hs, hmin => by
    rw [List.map_cons, List.sorted_cons] at hs
    by_cases hl : l.head = n₀
    · have ih := sorted_filter_split n₀ rest hs.2
        (fun x hx => hmin x (List.mem_cons_of_mem _ hx))
      simp only [List.filter_cons]
      rw [if_pos (by simpa using hl), if_neg (by simpa using hl)]
      exact congrArg (l :: ·) ih
    · have hne : ∀ x ∈ l :: rest, (x.head == n₀) = false := by
        intro x hx
        rcases List.mem_cons.1 hx with hx | hx
        · subst hx
          simpa using hl
        · have h₁ : StrLeP l.head x.head := hs.1 x.head (List.mem_map_of_mem _ hx)
          have h₂ : StrLeP n₀ l.head := hmin l (List.mem_cons_self _ _)
          simp only [beq_eq_false_iff_ne, ne_eq]
          intro hxe
          exact hl (strLeP_antisymm l.head n₀ (hxe ▸ h₁) h₂)
      have hfe : (l :: rest).filter (fun l => l.head == n₀) = [] := by
        rw [List.filter_eq_nil_iff]
        intro x hx
        simp [hne x hx]
      have hfn : (l :: rest).filter (fun l => l.head != n₀) = l :: rest := by
        rw [List.filter_eq_self]
        intro x hx
        simp [bne, hne x hx]
      rw [hfe, hfn]
      rfl

theorem groups_flatten :
    ∀ (N : List String) (ls : List Line), List.Sorted StrLeP N → N.Nodup →
      (∀ l ∈ ls, l.head ∈ N) → List.Sorted StrLeP (ls.map Line.head) →
      ((N.map (fun d => directiveGroup ls d)).flatten) = ls
  | [], ls, _, _, hmem, _ => by
    cases ls with
    | nil => rfl
    | cons l rest => exact absurd (hmem l (List.mem_cons_self _ _)) (List.not_mem_nil _)
  | n₀ :: N2, ls, hsN, hnd, hmem, hs => by
    rw [List.sorted_cons] at hsN
    rw [List.nodup_cons] at hnd
    have hmin : ∀ l ∈ ls, StrLeP n₀ l.head := by
      intro l hl
      rcases List.mem_cons.1 (hmem l hl) with h | h
      · rw [h]; exact strLeP_refl n₀
      · exact hsN.1 _ h
    have hsplit := sorted_filter_split n₀ ls hs hmin
    set ls2 := ls.filter (fun l => l.head != n₀) with hls2
    have hgroup2 : ∀ d ∈ N2, directiveGroup ls d = directiveGroup ls2 d := by
      intro d hd
      have hdn : d ≠ n₀ := fun he => hnd.1 (he ▸ hd)
      rw [hls2]
      unfold directiveGroup
      rw [List.filter_filter]
      apply List.filter_congr
      intro x hx
      by_cases hxd : x.head = d
      · simp [hxd, hdn]
      · simp [hxd]
    have ih : ((N2.map (fun d => directiveGroup ls2 d)).flatten) = ls2 := by
      apply groups_flatten N2 ls2 hsN.2 hnd.2
      · intro l hl
        have hl2 : l ∈ ls.filter (fun l => l.head != n₀) := hl
        have hlls : l ∈ ls := List.mem_of_mem_filter hl2
        have hne := List.of_mem_filter hl2
        rcases List.mem_cons.1 (hmem l hlls) with h | h
        · exact absurd h (by simpa using hne)
        · exact h
      · exact List.Pairwise.sublist ((List.filter_sublist ls).map Line.head) hs
    rw [List.map_cons, List.flatten_cons]
    rw [List.map_congr_left hgroup2, ih]
    conv_rhs => rw [hsplit]
    rfl

theorem sorted_flatten_chunks :
    ∀ (dirs : List String) (f : String → List Line),
      List.Sorted StrLeP dirs →
      (∀ d ∈ dirs, ∀ l ∈ f d, l.head = d) →
      List.Sorted StrLeP (((dirs.map f).flatten).map Line.head)
  | [], _, _, _ => List.Pairwise.nil
  | d :: ds, f, hsd, hf => by
    rw [List.sorted_cons] at hsd
    rw [List.map_cons, List.flatten_cons, List.map_append]
    unfold List.Sorted
    rw [List.pairwise_append]
    refine ⟨?_, sorted_flatten_chunks ds f hsd.2
      (fun d2 hd2 => hf d2 (List.mem_cons_of_mem _ hd2)), ?_⟩
    · apply pairwise_of_const (strLeP_refl d)
      intro x hx
      rcases List.mem_map.1 hx with ⟨l, hl, he⟩
      exact he ▸ hf d (List.mem_cons_self _ _) l hl
    · intro a ha b hb
      rcases List.mem_map.1 ha with ⟨l, hl, hea⟩
      have had : a = d := hea ▸ hf d (List.mem_cons_self _ _) l hl
      rcases List.mem_map.1 hb with ⟨l2, hl2, heb⟩
      rcases List.mem_flatten.1 hl2 with ⟨chunk, hchunk, hlc⟩
      rcases List.mem_map.1 hchunk with ⟨d2, hd2, hec⟩
      have hbd : b = d2 := heb ▸ (hec ▸ hf d2 (List.mem_cons_of_mem _ hd2)) l2 (hec ▸ hlc)
      rw [had, hbd]
      exact hsd.1 d2 hd2

theorem flatten_replicate_nil : ∀ n : Nat, (List.replicate n ([] : List Line)).flatten = []
  | 0 => rfl
  | n + 1 => by simp [List.replicate, flatten_replicate_nil n]

theorem emitDirective_hosts_nil {ls : List Line}
    (hG : directiveGroup ls "hosts" = []) :
    emitDirective ls "hosts" = ([Line.mk "hosts" [hostsPath] none], true) := by
  unfold emitDirective
  rw [if_pos (by simp), hG]

theorem emitDirective_hosts_cons {ls : List Line} {g : Line} {gs : List Line}
    (hG : directiveGroup ls "hosts" = g :: gs) :
    emitDirective ls "hosts" =
      ((g :: gs).map (fun l => (rewriteHostsItem l).1),
       (g :: gs).any (fun l => (rewriteHostsItem l).2)) := by
  unfold emitDirective
  rw [if_pos (by simp), hG]

theorem directiveGroup_empty_of_headsNonempty {ls : List Line}
    (h1 : headsNonempty ls = true) : directiveGroup ls "" = [] := by
  rw [directiveGroup, List.filter_eq_nil_iff]
  intro l hl
  have := List.all_eq_true.1 h1 l hl
  simpa using this

theorem hosts_mem_heads_of_hostsSatisfied {ls : List Line}
    (h2 : hostsSatisfied ls = true) : "hosts" ∈ ls.map Line.head := by
  rw [hostsSatisfied, Bool.and_eq_true] at h2
  have hne : directiveGroup ls "hosts" ≠ [] := by
    intro h
    rw [h] at h2
    simp at h2
  rcases List.exists_mem_of_ne_nil _ hne with ⟨l, hl⟩
  have hh := head_of_mem_directiveGroup hl
  have hm := mem_of_mem_directiveGroup hl
  exact hh ▸ List.mem_map_of_mem _ hm

theorem blockDirectives_eq_of_hosts {ls : List Line}
    (hh : "hosts" ∈ ls.map Line.head) :
    blockDirectives ls =
      List.replicate ((ls.map Line.head).dedup).length "" ++
        sortStrings ((ls.map Line.head).dedup) := by
  have hhn : "hosts" ∈ (ls.map Line.head).dedup := List.mem_dedup.2 hh
  simp only [blockDirectives]
  rw [if_pos ((ExistStringSlice_iff _ _).2 (List.mem_append_right _ hhn))]
  apply sortStrings_eq_of_sorted
  · exact List.Perm.append_left _ (sortStrings_perm _).symm
  · unfold List.Sorted
    rw [List.pairwise_append]
    refine ⟨pairwise_of_const (strLeP_refl "") (fun x hx => List.eq_of_mem_replicate hx),
      sortStrings_sorted _, ?_⟩
    intro a ha _ _
    rw [List.eq_of_mem_replicate ha]
    exact strLeP_bot _

theorem emitDirective_pointwise {ls : List Line}
    (h2 : hostsSatisfied ls = true) :
    ∀ d ∈ blockDirectives ls, emitDirective ls d = (directiveGroup ls d, false) := by
  intro d _
  by_cases hdh : d = "hosts"
  · subst hdh
    rw [hostsSatisfied, Bool.and_eq_true] at h2
    cases hG : directiveGroup ls "hosts" with
    | nil => rw [hG] at h2; simp at h2
    | cons g gs =>
      rw [emitDirective_hosts_cons hG]
      have hx : ∀ l ∈ g :: gs, ExistInterfaceSlice hostsPath l = true := by
        intro l hl
        exact List.all_eq_true.1 h2.2 l (by rw [hG]; exact hl)
      simp only [Prod.mk.injEq]
      refine ⟨?_, ?_⟩
      · rw [List.map_congr_left (fun l hl => by rw [rewriteHostsItem_of_exist (hx l hl)])]
        exact List.map_id _
      · rw [List.any_eq_false]
        intro l hl
        rw [rewriteHostsItem_of_exist (hx l hl)]
        simp
  · exact emitDirective_ne_hosts hdh ls

theorem normalizeLines_fixed {ls : List Line}
    (h1 : headsNonempty ls = true)
    (h2 : hostsSatisfied ls = true)
    (h3 : List.Sorted StrLeP (ls.map Line.head)) :
    normalizeLines ls = (ls, false) := by
  have hpt := emitDirective_pointwise h2
  have hdirs := blockDirectives_eq_of_hosts (hosts_mem_heads_of_hostsSatisfied h2)
  unfold normalizeLines
  refine Prod.ext ?_ ?_
  · show ((blockDirectives ls).map (fun d => (emitDirective ls d).1)).flatten = ls
    rw [List.map_congr_left (fun d hd => by rw [hpt d hd])]
    rw [hdirs, List.map_append, List.flatten_append, List.map_replicate,
      directiveGroup_empty_of_headsNonempty h1, flatten_replicate_nil]
    rw [List.nil_append]
    apply groups_flatten
    · exact sortStrings_sorted _
    · exact ((sortStrings_perm _).nodup_iff).2 (List.nodup_dedup _)
    · intro l hl
      rw [(sortStrings_perm _).mem_iff]
      exact List.mem_dedup.2 (List.mem_map_of_mem _ hl)
    · exact h3
  · show (blockDirectives ls).any (fun d => (emitDirective ls d).2) = false
    rw [List.any_eq_false]
    intro d hd
    rw [hpt d hd]
    simp

theorem emitDirective_head {ls : List Line} {d : String} {l : Line}
    (hl : l ∈ (emitDirective ls d).1) : l.head = d := by
  by_cases hdh : d = "hosts"
  · subst hdh
    cases hG : directiveGroup ls "hosts" with
    | nil =>
      rw [emitDirective_hosts_nil hG] at hl
      rcases List.mem_singleton.1 hl with h
      rw [h]
      rfl
    | cons g gs =>
      rw [emitDirective_hosts_cons hG] at hl
      rcases List.mem_map.1 hl with ⟨x, hx, he⟩
      have hxh : x.head = "hosts" :=
        head_of_mem_directiveGroup (by rw [hG]; exact hx)
      rw [← he, rewriteHostsItem_head]
      exact hxh
  · rw [emitDirective_ne_hosts hdh] at hl
    exact head_of_mem_directiveGroup hl

theorem mem_normalizeLines {ls : List Line} {l : Line}
    (hl : l ∈ (normalizeLines ls).1) :
    ∃ d ∈ blockDirectives ls, l ∈ (emitDirective ls d).1 := by
  unfold normalizeLines at hl
  simp only [List.mem_flatten] at hl
  rcases hl with ⟨chunk, hc, hlc⟩
  rcases List.mem_map.1 hc with ⟨d, hd, he⟩
  exact ⟨d, hd, he ▸ hlc⟩

theorem mem_normalizeLines_of {ls : List Line} {d : String} {l : Line}
    (hd : d ∈ blockDirectives ls) (hl : l ∈ (emitDirective ls d).1) :
    l ∈ (normalizeLines ls).1 := by
  unfold normalizeLines
  simp only [List.mem_flatten]
  exact ⟨(emitDirective ls d).1, List.mem_map_of_mem _ hd, hl⟩

theorem normalizeLines_headsNonempty {ls : List Line}
    (h1 : headsNonempty ls = true) :
    headsNonempty (normalizeLines ls).1 = true := by
  rw [headsNonempty, List.all_eq_true]
  intro l hl
  rcases mem_normalizeLines hl with ⟨d, _, hld⟩
  by_cases hdh : d = "hosts"
  · subst hdh
    have hh := emitDirective_head hld
    simp [hh]
  · rw [emitDirective_ne_hosts hdh] at hld
    exact List.all_eq_true.1 h1 l (mem_of_mem_directiveGroup hld)

theorem emitDirective_hosts_ne_nil (ls : List Line) :
    (emitDirective ls "hosts").1 ≠ [] := by
  cases hG : directiveGroup ls "hosts" with
  | nil => rw [emitDirective_hosts_nil hG]; simp
  | cons g gs => rw [emitDirective_hosts_cons hG]; simp

theorem emitDirective_hosts_exist {ls : List Line} {l : Line}
    (hl : l ∈ (emitDirective ls "hosts").1) :
    ExistInterfaceSlice hostsPath l = true := by
  cases hG : directiveGroup ls "hosts" with
  | nil =>
    rw [emitDirective_hosts_nil hG] at hl
    rcases List.mem_singleton.1 hl with h
    rw [h]
    rfl
  | cons g gs =>
    rw [emitDirective_hosts_cons hG] at hl
    rcases List.mem_map.1 hl with ⟨x, hx, he⟩
    have hxh : x.head = "hosts" :=
      head_of_mem_directiveGroup (by rw [hG]; exact hx)
    exact he ▸ rewriteHostsItem_exist hxh

theorem normalizeLines_hostsSatisfied (ls : List Line) :
    hostsSatisfied (normalizeLines ls).1 = true := by
  rw [hostsSatisfied, Bool.and_eq_true]
  constructor
  · rcases List.exists_mem_of_ne_nil _ (emitDirective_hosts_ne_nil ls) with ⟨l, hl⟩
    have hmem : l ∈ (normalizeLines ls).1 :=
      mem_normalizeLines_of (hosts_mem_blockDirectives ls) hl
    have hh : l.head = "hosts" := emitDirective_head hl
    have hg : l ∈ directiveGroup (normalizeLines ls).1 "hosts" :=
      List.mem_filter.2 ⟨hmem, by simp [hh]⟩
    cases hGE : directiveGroup (normalizeLines ls).1 "hosts" with
    | nil => rw [hGE] at hg; cases hg
    | cons x xs => simp
  · rw [List.all_eq_true]
    intro l hl
    have hhead := head_of_mem_directiveGroup hl
    have hmem := mem_of_mem_directiveGroup hl
    rcases mem_normalizeLines hmem with ⟨d, _, hld⟩
    have hdl : l.head = d := emitDirective_head hld
    have hdh : d = "hosts" := by rw [← hdl, hhead]
    subst hdh
    exact emitDirective_hosts_exist hld

theorem normalizeLines_sorted (ls : List Line) :
    List.Sorted StrLeP ((normalizeLines ls).1.map Line.head) := by
  unfold normalizeLines
  exact sorted_flatten_chunks _ _ (sortStrings_sorted _)
    (fun d _ l hl => emitDirective_head hl)

theorem normalizeLines_fixed_output {ls : List Line}
    (h1 : headsNonempty ls = true) :
    normalizeLines (normalizeLines ls).1 = ((normalizeLines ls).1, false) :=
  normalizeLines_fixed (normalizeLines_headsNonempty h1)
    (normalizeLines_hostsSatisfied ls) (normalizeLines_sorted ls)

theorem sortedStrings_iff : ∀ l : List String,
    sortedStrings l = true ↔ List.Sorted StrLeP l
  | [] => by simp [sortedStrings]
  | [a] => by simp [sortedStrings]
  | a :: b :: rest => by
    rw [sortedStrings, Bool.and_eq_true, sortedStrings_iff (b :: rest)]
    constructor
    · rintro ⟨hab, hrest⟩
      rw [List.sorted_cons]
      refine ⟨?_, hrest⟩
      intro x hx
      rcases List.mem_cons.1 hx with h | h
      · exact h ▸ hab
      · rw [List.sorted_cons] at hrest
        exact strLeP_trans a b x hab (hrest.1 x h)
    · intro h
      rw [List.sorted_cons] at h
      exact ⟨h.1 b (List.mem_cons_self _ _), h.2⟩

theorem BuildNewCoreFileDoc_fixed {d : List Block}
    (hfix : ∀ b ∈ d, normalizeLines b.lines = (b.lines, false)) :
    BuildNewCoreFileDoc d = (d, false) := by
  unfold BuildNewCoreFileDoc
  refine Prod.ext ?_ ?_
  · show d.map (fun b => (⟨b.keys, (normalizeLines b.lines).1⟩ : Block)) = d
    have hh : ∀ b ∈ d, (⟨b.keys, (normalizeLines b.lines).1⟩ : Block) = b := by
      intro b hb
      rw [hfix b hb]
    rw [List.map_congr_left hh]
    exact List.map_id' d
  · show d.any (fun b => (normalizeLines b.lines).2) = false
    rw [List.any_eq_false]
    intro b hb
    rw [hfix b hb]
    simp

/-- C1 counterexample: on a document whose directives are out of
lexicographic order but whose managed stanza is already canonical, the
normalizer reports changed=false even though the re-emitted document is
structurally different from the input, refuting that changed=false
coincides with an unchanged output. -/
theorem C1_counterexample :
    (BuildNewCoreFileDoc exampleUnsortedDoc).2 = false ∧
      (BuildNewCoreFileDoc exampleUnsortedDoc).1 ≠ exampleUnsortedDoc := by
  refine ⟨rfl, ?_⟩
  intro h
  have h3 := congrArg (fun d => d.map (fun b => b.lines.map Line.head)) h
  exact absurd h3 (by decide)

/-- C1 amended: the changed flag of the stanza normalizer is true exactly
when some block either lacks the managed hosts directive or has a hosts
line without the canonical argument among its top-level tokens; re-emitting
directives in a different order does not set the flag. -/
theorem C1_changed_tracks_managed_stanza (d : List Block) :
    (BuildNewCoreFileDoc d).2 = true ↔
      ∃ b ∈ d, (directiveGroup b.lines "hosts" = [] ∨
        ∃ l ∈ directiveGroup b.lines "hosts",
          ExistInterfaceSlice hostsPath l = false) := by
  unfold BuildNewCoreFileDoc
  simp only [List.any_eq_true]
  constructor
  · rintro ⟨b, hb, hflag⟩
    exact ⟨b, hb, (normalizeLines_changed_iff b.lines).1 hflag⟩
  · rintro ⟨b, hb, h⟩
    exact ⟨b, hb, (normalizeLines_changed_iff b.lines).2 h⟩

/-- C1 witness: the amended equivalence evaluated on the Scenario B
document, whose hosts line lacks the canonical argument. -/
theorem C1_witness : (BuildNewCoreFileDoc exampleHostsBodyDoc).2 = true :=
  (C1_changed_tracks_managed_stanza exampleHostsBodyDoc).2
    ⟨⟨["."], [Line.mk "hosts" []
        (some (.cons (.mk "fallthrough" [] none) .nil))]⟩,
      List.mem_cons_self _ _,
      Or.inr ⟨Line.mk "hosts" []
        (some (.cons (.mk "fallthrough" [] none) .nil)),
        List.mem_singleton_self _, rfl⟩⟩

/-- C2 counterexample: normalizing the Scenario B document drops the
nested body instead of preserving it: the slot at index 1 of the flat
item, which holds the body, is overwritten by the canonical path, so the
output is hosts followed by the path with no body, not the body-preserving
line the claim states. -/
theorem C2_counterexample :
    BuildNewCoreFileDoc exampleHostsBodyDoc =
      ([⟨["."], [Line.mk "hosts" [hostsPath] none]⟩], true) ∧
      (BuildNewCoreFileDoc exampleHostsBodyDoc).1 ≠ exampleHostsBodyKeptDoc := by
  refine ⟨rfl, ?_⟩
  intro h
  have h3 := congrArg
    (fun d => d.map (fun b => b.lines.map (fun l => (Line.body l).isSome))) h
  exact absurd h3 (by decide)

/-- C2 amended: normalizing a document whose managed directive carries a
nested body but no canonical argument overwrites the body slot with the
canonical argument, producing the bare line hosts path with the body
dropped, and reports changed=true. -/
theorem C2_body_replaced (K : List String) (B : Lines) :
    BuildNewCoreFileDoc [⟨K, [Line.mk "hosts" [] (some B)]⟩] =
      ([⟨K, [Line.mk "hosts" [hostsPath] none]⟩], true) := rfl

/-- C3 counterexample: a document satisfying the managed-stanza invariant
whose directives are not sorted is reordered by the normalizer, so
normalize(d) differs from (d, false), refuting unconditional idempotence. -/
theorem C3_counterexample :
    managedInvariant exampleUnsortedDoc = true ∧
      BuildNewCoreFileDoc exampleUnsortedDoc ≠ (exampleUnsortedDoc, false) := by
  refine ⟨rfl, ?_⟩
  intro h
  have h3 := congrArg (fun p => p.1.map (fun b => b.lines.map Line.head)) h
  exact absurd h3 (by decide)

/-- C3 amended: for every document with nonempty directive names that
satisfies the managed-stanza invariant and whose lines are already grouped
in lexicographically sorted directive order in every block, the normalizer
returns the document unchanged and reports no change. -/
theorem C3_idempotent_on_sorted (d : List Block)
    (h1 : ∀ b ∈ d, headsNonempty b.lines = true)
    (hinv : managedInvariant d = true)
    (hs : ∀ b ∈ d, sortedStrings (b.lines.map Line.head) = true) :
    BuildNewCoreFileDoc d = (d, false) := by
  apply BuildNewCoreFileDoc_fixed
  intro b hb
  exact normalizeLines_fixed (h1 b hb)
    (List.all_eq_true.1 (by simpa [managedInvariant] using hinv) b hb)
    ((sortedStrings_iff _).1 (hs b hb))

/-- C3 witness: the amended idempotence evaluated on a sorted document
with a canonical hosts stanza. -/
theorem C3_witness : BuildNewCoreFileDoc exampleSortedDoc = (exampleSortedDoc, false) :=
  C3_idempotent_on_sorted exampleSortedDoc (by decide) (by decide) (by decide)

/-- Claim C8 counterexample: the unqualified fixed-point law fails on a
well-formed, parseable document.  The text whose only directive line is
one empty quoted token parses to a document satisfying wfDoc whose single
line has an empty head; the first normalization emits that line once per
prefilled empty string of the directive slice and appends the hosts line
(three lines), and the second normalization emits it again per prefilled
slot (seven lines) while reporting changed=false, so
normalize(normalize(d).doc) differs from (normalize(d).doc, false). -/
theorem C8_counterexample :
    parse ".:53 \x7b\n\"\"\n\x7d\n" = .ok exampleEmptyHeadDoc ∧
      wfDoc exampleEmptyHeadDoc = true ∧
      BuildNewCoreFileDoc (BuildNewCoreFileDoc exampleEmptyHeadDoc).1 ≠
        ((BuildNewCoreFileDoc exampleEmptyHeadDoc).1, false) := by
  refine ⟨rfl, rfl, ?_⟩
  intro h
  have h3 := congrArg (fun p => p.1.map (fun b => b.lines.length)) h
  exact absurd h3 (by decide)

/-- Claim C8 amended: for every document all of whose directive names are
nonempty, normalization reaches a fixed point in one step: normalizing
the normalized document returns it unchanged with changed=false.  With an
empty directive name, reachable by parsing an empty quoted token, the
empty-named group is re-emitted once per make-prefilled empty string and
the document grows on every pass while changed stays false. -/
theorem C8_fixed_point (d : List Block)
    (h1 : ∀ b ∈ d, headsNonempty b.lines = true) :
    BuildNewCoreFileDoc (BuildNewCoreFileDoc d).1 =
      ((BuildNewCoreFileDoc d).1, false) := by
  apply BuildNewCoreFileDoc_fixed
  intro b2 hb2
  unfold BuildNewCoreFileDoc at hb2
  rcases List.mem_map.1 hb2 with ⟨b, hb, he⟩
  rw [← he]
  exact normalizeLines_fixed_output (h1 b hb)

/-- Claim C8 witness: the amended fixed point evaluated on a concrete
unsorted document with nonempty directive names. -/
theorem C8_witness :
    BuildNewCoreFileDoc (BuildNewCoreFileDoc exampleUnsortedDoc).1 =
      ((BuildNewCoreFileDoc exampleUnsortedDoc).1, false) :=
  C8_fixed_point exampleUnsortedDoc (by decide)

theorem RetryOnConflictCount_first_error {body : Nat → Except KErr Unit} {e : KErr}
    (h : body 0 = .error e) (hc : IsConflict e = false) :
    RetryOnConflictCount body = (.error e, 1) := by
  unfold RetryOnConflictCount DefaultRetrySteps
  show retryOnConflictCountAux body (4 + 1) 0 = (.error e, 1)
  unfold retryOnConflictCountAux
  rw [h]
  simp [hc]

theorem RetryOnConflict_first_error {body : Nat → Except KErr Unit} {e : KErr}
    (h : body 0 = .error e) (hc : IsConflict e = false) :
    RetryOnConflict body = .error e := by
  unfold RetryOnConflict
  rw [RetryOnConflictCount_first_error h hc]

theorem RetryOnConflict_first_ok {body : Nat → Except KErr Unit}
    (h : body 0 = .ok ()) : RetryOnConflict body = .ok () := by
  unfold RetryOnConflict RetryOnConflictCount DefaultRetrySteps
  show (retryOnConflictCountAux body (4 + 1) 0).1 = .ok ()
  unfold retryOnConflictCountAux
  rw [h]

/-- C4 counterexample: the network-endpoint ensure step is a call site
where a not-found on the initial fetch is not fatal: with the coredns
service absent and kube-dns present, ensureService succeeds. -/
theorem C4_counterexample :
    (exampleServiceAtts 0).fetchPrimary = Except.error KErr.notFound ∧
      ensureService 9080 exampleServiceAtts = Except.ok () := ⟨rfl, rfl⟩

/-- C4 amended: a not-found error on the initial fetch is fatal at the
cluster-role, deployment, corefile-configmap, Set and Delete call sites;
the two exceptions are the Record Store bootstrap, which creates the
object when absent, and the service ensure, which falls back to fetching
the kube-dns service and fails only when the fallback fetch also fails. -/
theorem C4_notfound_fatal_except_bootstrap_and_service :
    (∀ (atts : Nat → RoleAttempt) saName ns bl,
      saName ≠ "" → findClusterRoleName saName ns bl ≠ "" →
      (atts 0).fetch = .error .notFound →
      ensureClusterrole saName "" ns (.ok bl) atts =
        .error (.wrapped "failed to get latest version of Cluster" .notFound)) ∧
    (∀ (atts : Nat → DeployAttempt) v k p,
      (atts 0).fetch = .error .notFound →
      ensureDeployment v k p atts =
        .error (.wrapped "failed to get latest version of Deployment" .notFound)) ∧
    (∀ (atts : Nat → CMAttempt),
      ensureCoreDNSConfigmap (.error .notFound) atts = .error .notFound) ∧
    (∀ (create : ConfigMap → Except KErr ConfigMap) cm0,
      create ⟨[]⟩ = .ok cm0 →
      initConfigmap (.error .notFound) create = .ok ()) ∧
    (∀ (atts : Nat → CMAttempt) dom ip,
      (atts 0).fetch = .error .notFound →
      SetData dom ip atts =
        .error (.wrapped "failed to get latest version of Configmap" .notFound)) ∧
    (∀ (atts : Nat → CMAttempt) dom,
      (atts 0).fetch = .error .notFound →
      DeleteData dom atts =
        .error (.wrapped "failed to get latest version of Configmap" .notFound)) ∧
    (∀ (atts : Nat → ServiceAttempt) p e,
      (atts 0).fetchPrimary = .error .notFound →
      (atts 0).fetchKubeDns = .error e →
      ensureService p atts =
        .error (.wrapped "failed to get latest version of Service" e)) := by
  refine ⟨?_, ?_, ?_, ?_, ?_, ?_, ?_⟩
  · intro atts saName ns bl hsa hrole hf
    have h1 : (saName != "") = true := by simpa using hsa
    simp only [ensureClusterrole, h1, if_true]
    rw [if_neg (show ¬(saName == "") = true by simpa using hsa)]
    rw [if_neg (show ¬(findClusterRoleName saName ns bl == "") = true by
      simpa using hrole)]
    refine RetryOnConflict_first_error ?_ ?_
    · unfold ensureClusterroleBody
      rw [hf]
    · rfl
  · intro atts v k p hf
    refine RetryOnConflict_first_error ?_ ?_
    · unfold ensureDeploymentBody
      rw [hf]
    · rfl
  · intro atts
    rfl
  · intro create cm0 hc
    unfold initConfigmap
    rw [hc]
    rfl
  · intro atts dom ip hf
    refine RetryOnConflict_first_error ?_ ?_
    · unfold SetDataBody
      rw [hf]
    · rfl
  · intro atts dom hf
    refine RetryOnConflict_first_error ?_ ?_
    · unfold DeleteDataBody
      rw [hf]
    · rfl
  · intro atts p e h1 h2
    refine RetryOnConflict_first_error ?_ ?_
    · unfold ensureServiceBody
      rw [h1, h2]
    · rfl

/-- C4 witness: the amended propagation statement evaluated at concrete
attempt functions whose initial fetch fails with not-found. -/
theorem C4_witness :
    ensureClusterrole "coredns" "" "kube-system" (.ok [exampleBinding])
        exampleNotFoundRoleAtts =
      .error (.wrapped "failed to get latest version of Cluster" .notFound) ∧
    ensureDeployment "v0.0.1" "" 9080 exampleNotFoundDeployAtts =
      .error (.wrapped "failed to get latest version of Deployment" .notFound) ∧
    ensureCoreDNSConfigmap (.error .notFound) exampleNotFoundCMAtts =
      .error .notFound ∧
    initConfigmap (.error .notFound) (fun cm => .ok cm) = .ok () ∧
    SetData "a.example.com" "1.2.3.4" exampleNotFoundCMAtts =
      .error (.wrapped "failed to get latest version of Configmap" .notFound) ∧
    DeleteData "a.example.com" exampleNotFoundCMAtts =
      .error (.wrapped "failed to get latest version of Configmap" .notFound) ∧
    ensureService 9080 exampleNotFoundServiceAtts =
      .error (.wrapped "failed to get latest version of Service" .notFound) :=
  ⟨C4_notfound_fatal_except_bootstrap_and_service.1 exampleNotFoundRoleAtts
      "coredns" "kube-system" [exampleBinding] (by decide) (by decide) rfl,
   C4_notfound_fatal_except_bootstrap_and_service.2.1 exampleNotFoundDeployAtts
      "v0.0.1" "" 9080 rfl,
   C4_notfound_fatal_except_bootstrap_and_service.2.2.1 exampleNotFoundCMAtts,
   C4_notfound_fatal_except_bootstrap_and_service.2.2.2.1 (fun cm => .ok cm) ⟨[]⟩ rfl,
   C4_notfound_fatal_except_bootstrap_and_service.2.2.2.2.1 exampleNotFoundCMAtts
      "a.example.com" "1.2.3.4" rfl,
   C4_notfound_fatal_except_bootstrap_and_service.2.2.2.2.2.1 exampleNotFoundCMAtts
      "a.example.com" rfl,
   C4_notfound_fatal_except_bootstrap_and_service.2.2.2.2.2.2
      exampleNotFoundServiceAtts 9080 .notFound rfl rfl⟩

/-- C5 counterexample: on a trace where the update call returns the
written object but a subsequent fresh get would still miss the mapping,
the source-derived Set succeeds while the literal reading of the claim,
which re-fetches before asserting, fails: the façade does not re-fetch. -/
theorem C5_counterexample :
    SetData "a.example.com" "1.2.3.4" exampleCMAtts = .ok () ∧
      SetDataSpec "a.example.com" "1.2.3.4" exampleCMAtts =
        .error (.other "IntegrityError: value not present after write") := ⟨rfl, rfl⟩

/-- C5 amended: Set and Delete verify the write against the object the
update call returned (not a separate re-fetch); a failed verification
surfaces as a distinct non-conflict error message and the closure is not
re-invoked: exactly one attempt is consumed. -/
theorem C5_integrity_error_not_retried :
    (∀ (atts : Nat → CMAttempt) dom ip cm newCm,
      (atts 0).fetch = .ok cm →
      (match cmGet cm dom with | some v => v == ip | none => false) = false →
      (atts 0).update (cmSet cm dom ip) = .ok newCm →
      ((cmGet newCm dom).getD "" != ip) = true →
      SetData dom ip atts =
        .error (.other "failed to setData and updateCm value is not right") ∧
      (RetryOnConflictCount (fun i => SetDataBody dom ip (atts i))).2 = 1) ∧
    (∀ (atts : Nat → CMAttempt) dom cm newCm v,
      (atts 0).fetch = .ok cm →
      cm.data.isEmpty = false →
      (cmGet cm dom).isNone = false →
      (atts 0).update (cmDelete cm dom) = .ok newCm →
      newCm.data.isEmpty = false →
      cmGet newCm dom = some v →
      DeleteData dom atts =
        .error (.other "failed to DeleteData and updateCm val is exist") ∧
      (RetryOnConflictCount (fun i => DeleteDataBody dom (atts i))).2 = 1) := by
  constructor
  · intro atts dom ip cm newCm hf hne hu hbad
    have hbody : SetDataBody dom ip (atts 0) =
        .error (.other "failed to setData and updateCm value is not right") := by
      unfold SetDataBody
      rw [hf]
      simp only [hne, Bool.false_eq_true, if_false]
      rw [hu]
      simp only [hbad, if_true]
    have hcount := @RetryOnConflictCount_first_error
      (fun i => SetDataBody dom ip (atts i)) _ hbody rfl
    exact ⟨RetryOnConflict_first_error hbody rfl, by rw [hcount]⟩
  · intro atts dom cm newCm v hf hemp hnone hu hemp2 hv
    have hbody : DeleteDataBody dom (atts 0) =
        .error (.other "failed to DeleteData and updateCm val is exist") := by
      unfold DeleteDataBody
      rw [hf]
      simp only [hemp, Bool.false_eq_true, if_false]
      simp only [hnone, Bool.false_eq_true, if_false]
      rw [hu]
      simp only [hemp2, Bool.false_eq_true, if_false]
      rw [hv]
    have hcount := @RetryOnConflictCount_first_error
      (fun i => DeleteDataBody dom (atts i)) _ hbody rfl
    exact ⟨RetryOnConflict_first_error hbody rfl, by rw [hcount]⟩

/-- C5 witness: the amended statement evaluated on traces whose update
call returns an object violating the expected post-state. -/
theorem C5_witness :
    SetData "a.example.com" "1.2.3.4" exampleBadSetAtts =
      .error (.other "failed to setData and updateCm value is not right") ∧
    DeleteData "d.example.com" exampleBadDeleteAtts =
      .error (.other "failed to DeleteData and updateCm val is exist") :=
  ⟨(C5_integrity_error_not_retried.1 exampleBadSetAtts "a.example.com" "1.2.3.4"
      ⟨[]⟩ ⟨[]⟩ rfl rfl rfl rfl).1,
   (C5_integrity_error_not_retried.2 exampleBadDeleteAtts "d.example.com"
      ⟨[("d.example.com", "1.1.1.1")]⟩ ⟨[("d.example.com", "1.1.1.1")]⟩
      "1.1.1.1" rfl rfl rfl rfl rfl rfl).1⟩

/-- C6: every one-shot sync re-fetches the watched configmap fresh by its
identity key; a not-found leaves the whole state, sink included, untouched
and reports success, and otherwise the sink is fully overwritten with the
flattened value-first newline-terminated lines, independently of the old
sink content. -/
theorem C6_sync_fresh_overwrite (st : SyncState) (key ns name : String)
    (hk : SplitMetaNamespaceKey key = .ok (ns, name)) :
    (getConfigMap st ns name = .error .notFound → syncConfigmap st key = .ok st) ∧
    (∀ cm, getConfigMap st ns name = .ok cm →
      syncConfigmap st key = .ok ⟨st.configmaps, sinkContent cm⟩) := by
  have hred : syncConfigmap st key =
      match getConfigMap st ns name with
      | .error e => if IsNotFound e = true then .ok st else .error e
      | .ok cm => .ok ⟨st.configmaps, sinkContent cm⟩ := by
    unfold syncConfigmap
    rw [hk]
  constructor
  · intro h
    rw [hred, h]
    rfl
  · intro cm h
    rw [hred, h]

/-- C6 witness: the sync theorem evaluated on a concrete store, in both
the found and the not-found case. -/
theorem C6_witness :
    syncConfigmap exampleSyncState "kube-system/coredns-hosts-api" =
      .ok ⟨exampleSyncState.configmaps, "1.2.3.4 a.example.com\n"⟩ ∧
    syncConfigmap ⟨[], "old"⟩ "kube-system/coredns-hosts-api" = .ok ⟨[], "old"⟩ :=
  ⟨(C6_sync_fresh_overwrite exampleSyncState "kube-system/coredns-hosts-api"
      "kube-system" "coredns-hosts-api" rfl).2 ⟨[("a.example.com", "1.2.3.4")]⟩ rfl,
   (C6_sync_fresh_overwrite ⟨[], "old"⟩ "kube-system/coredns-hosts-api"
      "kube-system" "coredns-hosts-api" rfl).1 rfl⟩

/-- C9: once the work queue reports shutdown, the worker loop never
terminates: the return statement on quit only exits the anonymous closure
wrapping the loop body, so the enclosing for loop keeps calling Get
forever; for every iteration bound the loop is still spinning and never
reaches the terminated outcome the claim requires. -/
theorem C9_worker_loop_never_terminates (syncOk : String → Bool) (fuel : Nat) :
    workerLoop syncOk fuel ⟨[], true⟩ = WorkerOutcome.spinning := by
  induction fuel with
  | zero => rfl
  | succ n ih => exact ih

theorem mk_data (t : String) : String.mk t.data = t := by
  cases t
  rfl

theorem data_mk (l : List Char) : (String.mk l).data = l := rfl

theorem contains_false_iff (l : List Char) (c : Char) :
    l.contains c = false ↔ ∀ x ∈ l, x ≠ c := by
  constructor
  · intro h x hx he
    have h2 : l.contains c = true := List.elem_iff.2 (he ▸ hx)
    rw [h] at h2
    cases h2
  · intro h
    by_contra hne
    have h2 : l.contains c = true := by
      cases hc : l.contains c
      · exact absurd hc hne
      · rfl
    exact h c (List.elem_iff.1 h2) rfl

theorem rTok_spec {t : String} (h : rTok t = true) :
    (∀ c ∈ t.data, c ≠ '"') ∧ (∀ c ∈ t.data, c ≠ '\n') := by
  unfold rTok at h
  rw [Bool.and_eq_true] at h
  exact ⟨(contains_false_iff _ _).1 (by simpa using h.1),
         (contains_false_iff _ _).1 (by simpa using h.2)⟩

theorem tokenizeAux_bare_run :
    ∀ (ts acc : List Char) (toks : List String) (rest : List Char),
      (∀ c ∈ ts, isWSChar c = false ∧ c ≠ '"') →
      tokenizeAux .bare acc toks (ts ++ ' ' :: rest) =
        tokenizeAux .ws [] (String.mk (acc.reverse ++ ts) :: toks) rest
  | [], acc, toks, rest, _ => by
    show tokenizeAux .bare acc toks (' ' :: rest) = _
    rw [tokenizeAux]
    rw [if_pos (by rfl)]
    simp
  | c :: cs, acc, toks, rest, h => by
    have hc := h c (List.mem_cons_self _ _)
    show tokenizeAux .bare acc toks (c :: (cs ++ ' ' :: rest)) = _
    rw [tokenizeAux]
    rw [if_neg (by simp [hc.1]), if_neg hc.2]
    rw [tokenizeAux_bare_run cs (c :: acc) toks rest
      (fun x hx => h x (List.mem_cons_of_mem _ hx))]
    simp

theorem tokenizeAux_quoted_run :
    ∀ (ts acc : List Char) (toks : List String) (rest : List Char),
      (∀ c ∈ ts, c ≠ '"') →
      tokenizeAux .quoted acc toks (ts ++ '"' :: ' ' :: rest) =
        tokenizeAux .ws [] (String.mk (acc.reverse ++ ts) :: toks) rest
  | [], acc, toks, rest, _ => by
    show tokenizeAux .quoted acc toks ('"' :: ' ' :: rest) = _
    rw [tokenizeAux]
    rw [if_pos rfl]
    rw [tokenizeAux]
    rw [if_pos (by rfl)]
    simp
  | c :: cs, acc, toks, rest, h => by
    have hc := h c (List.mem_cons_self _ _)
    show tokenizeAux .quoted acc toks (c :: (cs ++ '"' :: ' ' :: rest)) = _
    rw [tokenizeAux]
    rw [if_neg hc]
    rw [tokenizeAux_quoted_run cs (c :: acc) toks rest
      (fun x hx => h x (List.mem_cons_of_mem _ hx))]
    simp

theorem needsQuote_false_spec {t : String} (h : needsQuote t = false) :
    t.data ≠ [] ∧ ∀ c ∈ t.data, isWSChar c = false := by
  unfold needsQuote at h
  rw [Bool.or_eq_false_iff] at h
  refine ⟨by simpa using h.1, ?_⟩
  intro c hc
  have := List.any_eq_false.1 h.2 c hc
  simpa using this

theorem tokenizeAux_renderTok {t : String} (htok : rTok t = true)
    (toks : List String) (rest : List Char) :
    tokenizeAux .ws [] toks (renderTok t ++ rest) =
      tokenizeAux .ws [] (t :: toks) rest := by
  have hq := rTok_spec htok
  by_cases hnq : needsQuote t = true
  · rw [renderTok, if_pos hnq]
    show tokenizeAux .ws [] toks ('"' :: ((t.data ++ ['"', ' ']) ++ rest)) = _
    rw [tokenizeAux]
    rw [if_neg (by simp [isWSChar]), if_pos rfl]
    have hsh : (t.data ++ ['"', ' ']) ++ rest = t.data ++ '"' :: ' ' :: rest := by
      simp
    rw [hsh, tokenizeAux_quoted_run t.data [] toks rest hq.1]
    rw [List.reverse_nil, List.nil_append, mk_data]
  · have hnq2 : needsQuote t = false := by
      cases hh : needsQuote t
      · rfl
      · exact absurd hh hnq
    have hspec := needsQuote_false_spec hnq2
    rw [renderTok, if_neg hnq]
    obtain ⟨c, cs, hd⟩ : ∃ c cs, t.data = c :: cs := by
      cases hdata : t.data with
      | nil => exact absurd hdata hspec.1
      | cons c cs => exact ⟨c, cs, rfl⟩
    rw [hd]
    show tokenizeAux .ws [] toks (c :: ((cs ++ [' ']) ++ rest)) = _
    rw [tokenizeAux]
    rw [if_neg (by simp [hspec.2 c (hd ▸ List.mem_cons_self _ _)])]
    rw [if_neg (hq.1 c (hd ▸ List.mem_cons_self _ _))]
    have hsh : (cs ++ [' ']) ++ rest = cs ++ ' ' :: rest := by simp
    rw [hsh]
    rw [tokenizeAux_bare_run cs [c] toks rest
      (fun x hx => ⟨hspec.2 x (hd ▸ List.mem_cons_of_mem _ hx),
                    hq.1 x (hd ▸ List.mem_cons_of_mem _ hx)⟩)]
    have : String.mk ([c].reverse ++ cs) = t := by
      rw [show [c].reverse = [c] from rfl]
      rw [show ([c] : List Char) ++ cs = c :: cs from rfl, ← hd, mk_data]
    rw [this]

theorem tokenizeAux_renderTokLine :
    ∀ (toks acc : List String),
      (∀ t ∈ toks, rTok t = true) →
      tokenizeAux .ws [] acc (renderTokLine toks) = .ok (acc.reverse ++ toks)
  | [], acc, _ => by
    show tokenizeAux .ws [] acc [] = _
    rw [tokenizeAux]
    simp
  | t :: ts, acc, h => by
    show tokenizeAux .ws [] acc (renderTok t ++ (ts.map renderTok).flatten) = _
    rw [tokenizeAux_renderTok (h t (List.mem_cons_self _ _)) acc _]
    rw [show (ts.map renderTok).flatten = renderTokLine ts from rfl]
    rw [tokenizeAux_renderTokLine ts (t :: acc)
      (fun x hx => h x (List.mem_cons_of_mem _ hx))]
    simp

theorem tokenizeLine_render (toks : List String)
    (h : ∀ t ∈ toks, rTok t = true) :
    tokenizeLine (renderTokLine toks) = .ok toks := by
  unfold tokenizeLine
  rw [tokenizeAux_renderTokLine toks [] h]
  rfl

theorem splitCh_append (sep : Char) :
    ∀ (lc rest : List Char), (∀ c ∈ lc, c ≠ sep) →
      splitCh sep (lc ++ sep :: rest) = lc :: splitCh sep rest
  | [], rest, _ => by
    show splitCh sep (sep :: rest) = _
    rw [splitCh, if_pos rfl]
  | c :: cs, rest, h => by
    show splitCh sep (c :: (cs ++ sep :: rest)) = _
    rw [splitCh, if_neg (h c (List.mem_cons_self _ _))]
    rw [splitCh_append sep cs rest (fun x hx => h x (List.mem_cons_of_mem _ hx))]

theorem renderTok_no_newline {t : String} (htok : rTok t = true) :
    ∀ c ∈ renderTok t, c ≠ '\n' := by
  intro c hc
  have hq := rTok_spec htok
  unfold renderTok at hc
  split at hc
  · rcases List.mem_cons.1 hc with h | h
    · rw [h]; decide
    · rcases List.mem_append.1 h with h2 | h2
      · exact hq.2 c h2
      · rcases List.mem_cons.1 h2 with h3 | h3
        · rw [h3]; decide
        · rcases List.mem_singleton.1 h3 with h4
          rw [h4]; decide
  · rcases List.mem_append.1 hc with h2 | h2
    · exact hq.2 c h2
    · rcases List.mem_singleton.1 h2 with h4
      rw [h4]; decide

theorem renderTokLine_no_newline {toks : List String}
    (h : ∀ t ∈ toks, rTok t = true) :
    ∀ c ∈ renderTokLine toks, c ≠ '\n' := by
  intro c hc
  unfold renderTokLine at hc
  rcases List.mem_flatten.1 hc with ⟨piece, hp, hcp⟩
  rcases List.mem_map.1 hp with ⟨t, ht, he⟩
  exact renderTok_no_newline (h t ht) c (he ▸ hcp)

theorem splitCh_renderTL :
    ∀ (tls : List (List String)),
      (∀ tl ∈ tls, ∀ t ∈ tl, rTok t = true) →
      splitCh '\n' (renderTL tls) = tls.map renderTokLine ++ [[]]
  | [], _ => rfl
  | tl :: rest, h => by
    show splitCh '\n' ((renderTokLine tl ++ ['\n']) ++ renderTL rest) = _
    have hsh : (renderTokLine tl ++ ['\n']) ++ renderTL rest =
        renderTokLine tl ++ '\n' :: renderTL rest := by simp
    rw [hsh]
    rw [splitCh_append '\n' _ _ (renderTokLine_no_newline (h tl (List.mem_cons_self _ _)))]
    rw [splitCh_renderTL rest (fun x hx => h x (List.mem_cons_of_mem _ hx))]
    rfl

theorem mapM_tokenize_render :
    ∀ (tls : List (List String)),
      (∀ tl ∈ tls, ∀ t ∈ tl, rTok t = true) →
      (tls.map renderTokLine ++ [[]]).mapM tokenizeLine = .ok (tls ++ [[]])
  | [], _ => rfl
  | tl :: rest, h => by
    show ((renderTokLine tl :: (rest.map renderTokLine ++ [[]])).mapM tokenizeLine) = _
    rw [List.mapM_cons]
    rw [tokenizeLine_render tl (h tl (List.mem_cons_self _ _))]
    rw [mapM_tokenize_render rest (fun x hx => h x (List.mem_cons_of_mem _ hx))]
    rfl

theorem wfTok_spec {t : String} (h : wfTok t = true) :
    rTok t = true ∧ t ≠ openBraceTok ∧ t ≠ closeBraceTok := by
  unfold wfTok at h
  rw [Bool.and_eq_true, Bool.and_eq_true, Bool.and_eq_true] at h
  refine ⟨?_, by simpa using h.1.2, by simpa using h.2⟩
  unfold rTok
  rw [Bool.and_eq_true]
  exact ⟨h.1.1.1, h.1.1.2⟩

theorem rTok_openBrace : rTok openBraceTok = true := by decide

theorem rTok_closeBrace : rTok closeBraceTok = true := by decide

theorem wfLine_spec {h : String} {args : List String} {body : Option Lines}
    (hw : wfLine (.mk h args body) = true) :
    wfTok h = true ∧ (∀ t ∈ args, wfTok t = true) ∧
      (∀ b, body = some b → wfLines b = true) := by
  cases body with
  | none =>
    rw [wfLine, Bool.and_eq_true] at hw
    exact ⟨hw.1, List.all_eq_true.1 hw.2, fun b hb => by cases hb⟩
  | some b =>
    rw [wfLine, Bool.and_eq_true, Bool.and_eq_true] at hw
    exact ⟨hw.1.1, List.all_eq_true.1 hw.1.2,
      fun b2 hb => by cases hb; exact hw.2⟩

mutual
theorem encodeLine_rTok : ∀ (l : Line), wfLine l = true →
    ∀ tl ∈ encodeLine l, ∀ t ∈ tl, rTok t = true
  | .mk h args none, hw, tl, htl, t, ht => by
    have hs := wfLine_spec hw
    rw [encodeLine] at htl
    rcases List.mem_singleton.1 htl with he
    rw [he] at ht
    rcases List.mem_cons.1 ht with h2 | h2
    · exact h2 ▸ (wfTok_spec hs.1).1
    · exact (wfTok_spec (hs.2.1 t h2)).1
  | .mk h args (some b), hw, tl, htl, t, ht => by
    have hs := wfLine_spec hw
    rw [encodeLine] at htl
    rcases List.mem_cons.1 htl with he | hmem
    · rw [he] at ht
      rcases List.mem_cons.1 ht with h2 | h2
      · exact h2 ▸ (wfTok_spec hs.1).1
      · rcases List.mem_append.1 h2 with h3 | h3
        · exact (wfTok_spec (hs.2.1 t h3)).1
        · rcases List.mem_singleton.1 h3 with h4
          exact h4 ▸ rTok_openBrace
    · rcases List.mem_append.1 hmem with h3 | h3
      · exact encodeLinesB_rTok b (hs.2.2 b rfl) tl h3 t ht
      · rcases List.mem_singleton.1 h3 with h4
        rw [h4] at ht
        rcases List.mem_singleton.1 ht with h5
        exact h5 ▸ rTok_closeBrace
theorem encodeLinesB_rTok : ∀ (b : Lines), wfLines b = true →
    ∀ tl ∈ encodeLinesB b, ∀ t ∈ tl, rTok t = true
  | .nil, _, tl, htl, _, _ => by
    rw [encodeLinesB] at htl
    cases htl
  | .cons l r, hw, tl, htl, t, ht => by
    rw [wfLines, Bool.and_eq_true] at hw
    rw [encodeLinesB] at htl
    rcases List.mem_append.1 htl with h3 | h3
    · exact encodeLine_rTok l hw.1 tl h3 t ht
    · exact encodeLinesB_rTok r hw.2 tl h3 t ht
end

theorem encodeTop_rTok {ls : List Line} (h : ∀ l ∈ ls, wfLine l = true) :
    ∀ tl ∈ encodeTop ls, ∀ t ∈ tl, rTok t = true := by
  intro tl htl t ht
  unfold encodeTop at htl
  rcases List.mem_flatten.1 htl with ⟨chunk, hc, htlc⟩
  rcases List.mem_map.1 hc with ⟨l, hl, he⟩
  exact encodeLine_rTok l (h l hl) tl (he ▸ htlc) t ht

theorem encodeDoc_rTok {d : List Block} (h : wfDoc d = true) :
    ∀ tl ∈ encodeDoc d, ∀ t ∈ tl, rTok t = true := by
  intro tl htl t ht
  unfold encodeDoc at htl
  rcases List.mem_flatten.1 htl with ⟨chunk, hc, htlc⟩
  rcases List.mem_map.1 hc with ⟨b, hb, he⟩
  have hwb : wfBlock b = true := List.all_eq_true.1 h b hb
  rw [wfBlock, Bool.and_eq_true, Bool.and_eq_true] at hwb
  rw [← he] at htlc
  rcases List.mem_cons.1 htlc with h2 | h2
  · rw [h2] at ht
    rcases List.mem_append.1 ht with h3 | h3
    · exact (wfTok_spec (List.all_eq_true.1 hwb.1.2 t h3)).1
    · rcases List.mem_singleton.1 h3 with h4
      exact h4 ▸ rTok_openBrace
  · rcases List.mem_append.1 h2 with h3 | h3
    · exact encodeTop_rTok (List.all_eq_true.1 hwb.2) tl h3 t ht
    · rcases List.mem_singleton.1 h3 with h4
      rw [h4] at ht
      rcases List.mem_singleton.1 ht with h5
      exact h5 ▸ rTok_closeBrace

theorem hasBrace_false {ts : List String} (h : ∀ t ∈ ts, wfTok t = true) :
    hasBrace ts = false := by
  rw [hasBrace, List.any_eq_false]
  intro t ht
  have hspec := wfTok_spec (h t ht)
  simp [hspec.2.1, hspec.2.2]

theorem getLast_not_openBrace {ts : List String}
    (h : ∀ t ∈ ts, wfTok t = true) :
    (ts.getLast? == some openBraceTok) = false := by
  cases hx : ts.getLast? with
  | none => rfl
  | some a =>
    have ha : a ∈ ts := List.mem_of_mem_getLast? hx
    have hne : a ≠ openBraceTok := (wfTok_spec (h a ha)).2.1
    simp [hne]

theorem stepTL_simple {h : String} {args keys : List String}
    {stack : List Frame} {acc : List Line} {blocks : List Block}
    (hw : wfTok h = true) (hargs : ∀ t ∈ args, wfTok t = true) :
    stepTL ⟨blocks, some (keys, stack, acc)⟩ (h :: args) =
      .ok ⟨blocks, some (keys, stack, acc ++ [Line.mk h args none])⟩ := by
  have hs := wfTok_spec hw
  simp only [stepTL]
  rw [if_neg (by simp [hs.2.2]), if_neg (by simp [hs.2.1])]
  rw [if_neg (by simp [getLast_not_openBrace hargs])]
  rw [if_neg (by simp [hasBrace_false hargs])]

theorem stepTL_open {h : String} {args keys : List String}
    {stack : List Frame} {acc : List Line} {blocks : List Block}
    (hw : wfTok h = true) (hargs : ∀ t ∈ args, wfTok t = true) :
    stepTL ⟨blocks, some (keys, stack, acc)⟩ (h :: (args ++ [openBraceTok])) =
      .ok ⟨blocks, some (keys, ⟨h, args, acc⟩ :: stack, [])⟩ := by
  have hs := wfTok_spec hw
  simp only [stepTL]
  rw [if_neg (by simp [hs.2.2]), if_neg (by simp [hs.2.1])]
  rw [if_pos (by rw [List.getLast?_concat]; rfl)]
  rw [List.dropLast_concat]
  rw [if_neg (by simp [hasBrace_false hargs])]

theorem stepTL_close_pop {keys : List String} {fr : Frame}
    {stack : List Frame} {acc : List Line} {blocks : List Block} :
    stepTL ⟨blocks, some (keys, fr :: stack, acc)⟩ [closeBraceTok] =
      .ok ⟨blocks, some (keys, stack,
            fr.saved ++ [Line.mk fr.fhead fr.fargs (some (Lines.ofList acc))])⟩ := rfl

theorem stepTL_close_block {keys : List String} {acc : List Line}
    {blocks : List Block} :
    stepTL ⟨blocks, some (keys, [], acc)⟩ [closeBraceTok] =
      .ok ⟨blocks ++ [⟨keys, acc⟩], none⟩ := rfl

theorem stepTL_keyline {k : String} {kr : List String} {blocks : List Block}
    (hw : ∀ t ∈ k :: kr, wfTok t = true) :
    stepTL ⟨blocks, none⟩ ((k :: kr) ++ [openBraceTok]) =
      .ok ⟨blocks, some (k :: kr, [], [])⟩ := by
  show stepTL ⟨blocks, none⟩ (k :: (kr ++ [openBraceTok])) = _
  rw [stepTL]
  rw [if_pos (by rw [show k :: (kr ++ [openBraceTok]) = (k :: kr) ++ [openBraceTok] from rfl,
    List.getLast?_concat]; rfl)]
  rw [show k :: (kr ++ [openBraceTok]) = (k :: kr) ++ [openBraceTok] from rfl, List.dropLast_concat]
  rw [if_neg (by simp), if_neg (by simp [hasBrace_false hw])]

theorem runTL_cons_ok {tl : List String} {rest : List (List String)}
    {st st2 : PState} (h : stepTL st tl = .ok st2) :
    runTL (tl :: rest) st = runTL rest st2 := by
  rw [runTL, h]

theorem runTL_blank (rest : List (List String)) (st : PState) :
    runTL ([] :: rest) st = runTL rest st := by
  rcases st with ⟨blocks, _ | ⟨keys, stack, acc⟩⟩ <;> rfl

theorem ofList_toList : ∀ b : Lines, Lines.ofList (Lines.toList b) = b
  | .nil => rfl
  | .cons l r => by
    rw [Lines.toList, Lines.ofList, ofList_toList r]

mutual
theorem runTL_encodeLine : ∀ (l : Line), wfLine l = true →
    ∀ (rest : List (List String)) (blocks : List Block) (keys : List String)
      (stack : List Frame) (acc : List Line),
      runTL (encodeLine l ++ rest) ⟨blocks, some (keys, stack, acc)⟩ =
        runTL rest ⟨blocks, some (keys, stack, acc ++ [l])⟩
  | .mk h args none, hw, rest, blocks, keys, stack, acc => by
    have hs := wfLine_spec hw
    rw [encodeLine, List.singleton_append]
    rw [runTL_cons_ok (stepTL_simple hs.1 hs.2.1)]
  | .mk h args (some b), hw, rest, blocks, keys, stack, acc => by
    have hs := wfLine_spec hw
    rw [encodeLine, List.cons_append, List.cons_append]
    rw [runTL_cons_ok (stepTL_open hs.1 hs.2.1)]
    rw [List.append_assoc]
    rw [runTL_encodeLinesB b (hs.2.2 b rfl)]
    rw [List.singleton_append]
    rw [runTL_cons_ok stepTL_close_pop]
    rw [show Frame.saved ⟨h, args, acc⟩ = acc from rfl]
    rw [show Frame.fhead ⟨h, args, acc⟩ = h from rfl]
    rw [show Frame.fargs ⟨h, args, acc⟩ = args from rfl]
    rw [List.nil_append, ofList_toList]
theorem runTL_encodeLinesB : ∀ (b : Lines), wfLines b = true →
    ∀ (rest : List (List String)) (blocks : List Block) (keys : List String)
      (stack : List Frame) (acc : List Line),
      runTL (encodeLinesB b ++ rest) ⟨blocks, some (keys, stack, acc)⟩ =
        runTL rest ⟨blocks, some (keys, stack, acc ++ Lines.toList b)⟩
  | .nil, _, rest, blocks, keys, stack, acc => by
    rw [encodeLinesB, List.nil_append, Lines.toList, List.append_nil]
  | .cons l r, hw, rest, blocks, keys, stack, acc => by
    rw [wfLines, Bool.and_eq_true] at hw
    rw [encodeLinesB, List.append_assoc]
    rw [runTL_encodeLine l hw.1]
    rw [runTL_encodeLinesB r hw.2]
    rw [Lines.toList, List.append_assoc, List.singleton_append]
end

theorem runTL_encodeTop : ∀ (ls : List Line), (∀ l ∈ ls, wfLine l = true) →
    ∀ (rest : List (List String)) (blocks : List Block) (keys : List String)
      (stack : List Frame) (acc : List Line),
      runTL (encodeTop ls ++ rest) ⟨blocks, some (keys, stack, acc)⟩ =
        runTL rest ⟨blocks, some (keys, stack, acc ++ ls)⟩
  | [], _, rest, blocks, keys, stack, acc => by
    rw [show encodeTop [] = [] from rfl, List.nil_append, List.append_nil]
  | l :: ls, h, rest, blocks, keys, stack, acc => by
    rw [show encodeTop (l :: ls) = encodeLine l ++ encodeTop ls from by
      unfold encodeTop
      rw [List.map_cons, List.flatten_cons]]
    rw [List.append_assoc]
    rw [runTL_encodeLine l (h l (List.mem_cons_self _ _))]
    rw [runTL_encodeTop ls (fun x hx => h x (List.mem_cons_of_mem _ hx))]
    rw [List.append_assoc, List.singleton_append]

theorem runTL_encodeDoc : ∀ (d : List Block), wfDoc d = true →
    ∀ (blocks : List Block),
      runTL (encodeDoc d ++ [[]]) ⟨blocks, none⟩ = .ok (blocks ++ d)
  | [], _, blocks => by
    rw [show encodeDoc [] = [] from rfl, List.nil_append]
    rw [runTL_blank, runTL]
    rw [List.append_nil]
  | b :: ds, hw, blocks => by
    have hwb : wfBlock b = true := List.all_eq_true.1 hw b (List.mem_cons_self _ _)
    rw [wfBlock, Bool.and_eq_true, Bool.and_eq_true] at hwb
    have hwd : wfDoc ds = true := by
      rw [wfDoc, List.all_eq_true]
      intro x hx
      exact List.all_eq_true.1 hw x (List.mem_cons_of_mem _ hx)
    obtain ⟨k, kr, hk⟩ : ∃ k kr, b.keys = k :: kr := by
      cases hkk : b.keys with
      | nil => rw [hkk] at hwb; simp at hwb
      | cons k kr => exact ⟨k, kr, rfl⟩
    rw [show encodeDoc (b :: ds) =
        ((b.keys ++ [openBraceTok]) :: (encodeTop b.lines ++ [[closeBraceTok]])) ++ encodeDoc ds from by
      unfold encodeDoc
      rw [List.map_cons, List.flatten_cons]]
    rw [List.append_assoc, List.cons_append]
    rw [hk]
    rw [runTL_cons_ok (stepTL_keyline (by
      rw [← hk]
      exact List.all_eq_true.1 hwb.1.2))]
    rw [List.append_assoc]
    rw [runTL_encodeTop b.lines (List.all_eq_true.1 hwb.2)]
    rw [List.singleton_append]
    rw [runTL_cons_ok stepTL_close_block]
    rw [runTL_encodeDoc ds hwd]
    rw [List.nil_append, ← hk]
    rw [show (⟨b.keys, b.lines⟩ : Block) = b from rfl]
    rw [List.append_assoc, List.singleton_append]

theorem parse_serialize {d : List Block} (h : wfDoc d = true) :
    parse (serialize d) = .ok d := by
  have hr := encodeDoc_rTok h
  unfold parse serialize
  rw [data_mk]
  rw [splitCh_renderTL (encodeDoc d) hr]
  rw [mapM_tokenize_render (encodeDoc d) hr]
  show runTL (encodeDoc d ++ [[]]) ⟨[], none⟩ = .ok d
  rw [runTL_encodeDoc d h []]
  rw [List.nil_append]

theorem rTok_of_acc {acc : List Char}
    (hacc : ∀ c ∈ acc, c ≠ '"' ∧ c ≠ '\n') :
    rTok (String.mk acc.reverse) = true := by
  unfold rTok
  rw [Bool.and_eq_true]
  constructor
  · simp only [Bool.not_eq_true']
    rw [contains_false_iff]
    intro x hx
    exact (hacc x (List.mem_reverse.1 hx)).1
  · simp only [Bool.not_eq_true']
    rw [contains_false_iff]
    intro x hx
    exact (hacc x (List.mem_reverse.1 hx)).2

theorem tokenizeAux_sane :
    ∀ (cs : List Char) (mode : TMode) (acc : List Char) (toks out : List String),
      (∀ c ∈ cs, c ≠ '\n') →
      (∀ t ∈ toks, rTok t = true) →
      (∀ c ∈ acc, c ≠ '"' ∧ c ≠ '\n') →
      tokenizeAux mode acc toks cs = .ok out →
      ∀ t ∈ out, rTok t = true := by
  intro cs
  induction cs with
  | nil =>
    intro mode acc toks out _ htoks hacc heq
    cases mode with
    | ws =>
      simp only [tokenizeAux] at heq
      cases heq
      intro t ht
      exact htoks t (List.mem_reverse.1 ht)
    | bare =>
      simp only [tokenizeAux] at heq
      cases heq
      intro t ht
      rcases List.mem_append.1 ht with h | h
      · exact htoks t (List.mem_reverse.1 h)
      · rcases List.mem_singleton.1 h with he
        exact he ▸ rTok_of_acc hacc
    | quoted =>
      simp only [tokenizeAux] at heq
      cases heq
    | afterq =>
      simp only [tokenizeAux] at heq
      cases heq
      intro t ht
      exact htoks t (List.mem_reverse.1 ht)
  | cons c cs ih =>
    intro mode acc toks out hcs htoks hacc heq
    have hcs2 : ∀ x ∈ cs, x ≠ '\n' := fun x hx => hcs x (List.mem_cons_of_mem _ hx)
    have hcne : c ≠ '\n' := hcs c (List.mem_cons_self _ _)
    cases mode with
    | ws =>
      simp only [tokenizeAux] at heq
      split at heq
      · exact ih .ws [] toks out hcs2 htoks (by intro x hx; cases hx) heq
      · split at heq
        · exact ih .quoted [] toks out hcs2 htoks (by intro x hx; cases hx) heq
        · next hnws hnq =>
          exact ih .bare [c] toks out hcs2 htoks
            (by
              intro x hx
              rcases List.mem_singleton.1 hx with he
              exact he ▸ ⟨hnq, hcne⟩) heq
    | bare =>
      simp only [tokenizeAux] at heq
      split at heq
      · exact ih .ws [] (String.mk acc.reverse :: toks) out hcs2
          (by
            intro t ht
            rcases List.mem_cons.1 ht with he | hmem
            · exact he ▸ rTok_of_acc hacc
            · exact htoks t hmem)
          (by intro x hx; cases hx) heq
      · split at heq
        · cases heq
        · next hnws hnq =>
          exact ih .bare (c :: acc) toks out hcs2 htoks
            (by
              intro x hx
              rcases List.mem_cons.1 hx with he | hmem
              · exact he ▸ ⟨hnq, hcne⟩
              · exact hacc x hmem) heq
    | quoted =>
      simp only [tokenizeAux] at heq
      split at heq
      · exact ih .afterq [] (String.mk acc.reverse :: toks) out hcs2
          (by
            intro t ht
            rcases List.mem_cons.1 ht with he | hmem
            · exact he ▸ rTok_of_acc hacc
            · exact htoks t hmem)
          (by intro x hx; cases hx) heq
      · next hnq =>
        exact ih .quoted (c :: acc) toks out hcs2 htoks
          (by
            intro x hx
            rcases List.mem_cons.1 hx with he | hmem
            · exact he ▸ ⟨hnq, hcne⟩
            · exact hacc x hmem) heq
    | afterq =>
      simp only [tokenizeAux] at heq
      split at heq
      · exact ih .ws [] toks out hcs2 htoks (by intro x hx; cases hx) heq
      · cases heq

theorem splitCh_no_sep (sep : Char) :
    ∀ (cs : List Char), ∀ piece ∈ splitCh sep cs, ∀ c ∈ piece, c ≠ sep
  | [], piece, hp, c, hc => by
    rw [splitCh] at hp
    rcases List.mem_singleton.1 hp with he
    rw [he] at hc
    cases hc
  | c0 :: cs, piece, hp, c, hc => by
    rw [splitCh] at hp
    split at hp
    · rcases List.mem_cons.1 hp with he | hmem
      · rw [he] at hc
        cases hc
      · exact splitCh_no_sep sep cs piece hmem c hc
    · next hne =>
      rcases hsp : splitCh sep cs with _ | ⟨l, ls⟩
      · rw [hsp] at hp
        rcases List.mem_singleton.1 hp with he
        rw [he] at hc
        rcases List.mem_singleton.1 hc with he2
        exact he2 ▸ hne
      · rw [hsp] at hp
        rcases List.mem_cons.1 hp with he | hmem
        · rw [he] at hc
          rcases List.mem_cons.1 hc with he2 | hmem2
          · exact he2 ▸ hne
          · exact splitCh_no_sep sep cs l (hsp ▸ List.mem_cons_self _ _) c hmem2
        · exact splitCh_no_sep sep cs piece (hsp ▸ List.mem_cons_of_mem _ hmem) c hc

theorem mapM_ok_mem {α β : Type} (f : α → Except PErr β) :
    ∀ (xs : List α) (ys : List β), xs.mapM f = .ok ys →
      ∀ y ∈ ys, ∃ x ∈ xs, f x = .ok y
  | [], ys, heq, y, hy => by
    cases heq
    cases hy
  | x :: xs, ys, heq, y, hy => by
    rw [List.mapM_cons] at heq
    cases hfx : f x with
    | error e =>
      rw [hfx] at heq
      cases heq
    | ok y0 =>
      rw [hfx] at heq
      cases hrest : List.mapM f xs with
      | error e =>
        rw [hrest] at heq
        cases heq
      | ok ys0 =>
        rw [hrest] at heq
        cases heq
        rcases List.mem_cons.1 hy with he | hmem
        · exact ⟨x, List.mem_cons_self _ _, he ▸ hfx⟩
        · rcases mapM_ok_mem f xs ys0 hrest y hmem with ⟨x2, hx2, hfx2⟩
          exact ⟨x2, List.mem_cons_of_mem _ hx2, hfx2⟩

theorem wfTok_of_rTok {t : String} (hr : rTok t = true)
    (h1 : t ≠ openBraceTok) (h2 : t ≠ closeBraceTok) : wfTok t = true := by
  unfold rTok at hr
  rw [Bool.and_eq_true] at hr
  unfold wfTok
  rw [Bool.and_eq_true, Bool.and_eq_true, Bool.and_eq_true]
  exact ⟨⟨⟨hr.1, hr.2⟩, by simpa using h1⟩, by simpa using h2⟩

theorem wfLines_ofList : ∀ (ls : List Line), (∀ l ∈ ls, wfLine l = true) →
    wfLines (Lines.ofList ls) = true
  | [], _ => rfl
  | l :: rest, h => by
    rw [Lines.ofList, wfLines, Bool.and_eq_true]
    exact ⟨h l (List.mem_cons_self _ _),
      wfLines_ofList rest (fun x hx => h x (List.mem_cons_of_mem _ hx))⟩

theorem not_brace_of_hasBrace_false {ts : List String} {t : String}
    (h : hasBrace ts = false) (ht : t ∈ ts) : t ≠ openBraceTok ∧ t ≠ closeBraceTok := by
  rw [hasBrace, List.any_eq_false] at h
  have := h t ht
  constructor
  · intro he
    exact this (by simp [he])
  · intro he
    exact this (by simp [he])

theorem wfTok_of_parts {ts : List String} {t : String}
    (hr : ∀ x ∈ ts, rTok x = true) (hb : hasBrace ts = false) (ht : t ∈ ts) :
    wfTok t = true :=
  wfTok_of_rTok (hr t ht) (not_brace_of_hasBrace_false hb ht).1
    (not_brace_of_hasBrace_false hb ht).2

theorem stepTL_wf : ∀ (blocks : List Block)
    (cur : Option (List String × List Frame × List Line))
    (tl : List String) (st2 : PState),
    (∀ t ∈ tl, rTok t = true) →
    wfState ⟨blocks, cur⟩ = true →
    stepTL ⟨blocks, cur⟩ tl = .ok st2 →
    wfState st2 = true := by
  intro blocks cur tl st2 htl hst heq
  rw [wfState, Bool.and_eq_true] at hst
  cases tl with
  | nil =>
    rcases cur with _ | ⟨keys, stack, acc⟩ <;>
      (simp only [stepTL] at heq; cases heq;
       rw [wfState, Bool.and_eq_true]; exact hst)
  | cons t ts =>
    rcases cur with _ | ⟨keys, stack, acc⟩
    · simp only [stepTL] at heq
      split at heq
      · split at heq
        · cases heq
        · split at heq
          · cases heq
          · next hemp hbr =>
            cases heq
            rw [wfState, Bool.and_eq_true]
            refine ⟨hst.1, ?_⟩
            simp only [wfCur]
            rw [Bool.and_eq_true, Bool.and_eq_true, Bool.and_eq_true]
            refine ⟨⟨⟨by simpa using hemp, ?_⟩, rfl⟩, rfl⟩
            rw [List.all_eq_true]
            intro x hx
            exact wfTok_of_parts (fun y hy => htl y (List.mem_of_mem_dropLast hy))
              (by simpa using hbr) hx
      · cases heq
    · have hcur := hst.2
      simp only [wfCur] at hcur
      rw [Bool.and_eq_true, Bool.and_eq_true, Bool.and_eq_true] at hcur
      simp only [stepTL] at heq
      split at heq
      · next htc =>
        split at heq
        · split at heq
          · cases heq
            rw [wfState, Bool.and_eq_true]
            refine ⟨?_, rfl⟩
            rw [List.all_eq_true]
            intro b hb
            rcases List.mem_append.1 hb with h2 | h2
            · exact List.all_eq_true.1 hst.1 b h2
            · rcases List.mem_singleton.1 h2 with he
              rw [he, wfBlock, Bool.and_eq_true, Bool.and_eq_true]
              exact ⟨⟨hcur.1.1.1, hcur.1.1.2⟩, hcur.2⟩
          · next fr stack2 =>
            cases heq
            rw [wfState, Bool.and_eq_true]
            refine ⟨hst.1, ?_⟩
            simp only [wfCur]
            rw [Bool.and_eq_true, Bool.and_eq_true, Bool.and_eq_true]
            have hfr : wfFrame fr = true :=
              List.all_eq_true.1 hcur.1.2 fr (List.mem_cons_self _ _)
            rw [wfFrame, Bool.and_eq_true, Bool.and_eq_true] at hfr
            refine ⟨⟨⟨hcur.1.1.1, hcur.1.1.2⟩, ?_⟩, ?_⟩
            · rw [List.all_eq_true]
              intro x hx
              exact List.all_eq_true.1 hcur.1.2 x (List.mem_cons_of_mem _ hx)
            · rw [List.all_eq_true]
              intro l hl
              rcases List.mem_append.1 hl with h2 | h2
              · exact List.all_eq_true.1 hfr.2 l h2
              · rcases List.mem_singleton.1 h2 with he
                rw [he, wfLine, Bool.and_eq_true, Bool.and_eq_true]
                exact ⟨⟨hfr.1.1, hfr.1.2⟩,
                  wfLines_ofList acc (List.all_eq_true.1 hcur.2)⟩
        · cases heq
      · split at heq
        · cases heq
        · split at heq
          · split at heq
            · cases heq
            · next htc htb hgl hbr =>
              cases heq
              rw [wfState, Bool.and_eq_true]
              refine ⟨hst.1, ?_⟩
              simp only [wfCur]
              rw [Bool.and_eq_true, Bool.and_eq_true, Bool.and_eq_true]
              refine ⟨⟨⟨hcur.1.1.1, hcur.1.1.2⟩, ?_⟩, rfl⟩
              rw [List.all_eq_true]
              intro fr2 hfr2
              rcases List.mem_cons.1 hfr2 with he | hmem
              · rw [he, wfFrame, Bool.and_eq_true, Bool.and_eq_true]
                refine ⟨⟨?_, ?_⟩, hcur.2⟩
                · exact wfTok_of_rTok (htl t (List.mem_cons_self _ _))
                    (by simpa using htb) (by simpa using htc)
                · rw [List.all_eq_true]
                  intro x hx
                  exact wfTok_of_parts
                    (fun y hy => htl y (List.mem_cons_of_mem _ (List.mem_of_mem_dropLast hy)))
                    (by simpa using hbr) hx
              · exact List.all_eq_true.1 hcur.1.2 fr2 hmem
          · split at heq
            · cases heq
            · next htc htb hgl hbr =>
              cases heq
              rw [wfState, Bool.and_eq_true]
              refine ⟨hst.1, ?_⟩
              simp only [wfCur]
              rw [Bool.and_eq_true, Bool.and_eq_true, Bool.and_eq_true]
              refine ⟨⟨⟨hcur.1.1.1, hcur.1.1.2⟩, hcur.1.2⟩, ?_⟩
              rw [List.all_eq_true]
              intro l hl
              rcases List.mem_append.1 hl with h2 | h2
              · exact List.all_eq_true.1 hcur.2 l h2
              · rcases List.mem_singleton.1 h2 with he
                rw [he, wfLine, Bool.and_eq_true]
                refine ⟨?_, ?_⟩
                · exact wfTok_of_rTok (htl t (List.mem_cons_self _ _))
                    (by simpa using htb) (by simpa using htc)
                · rw [List.all_eq_true]
                  intro x hx
                  exact wfTok_of_parts
                    (fun y hy => htl y (List.mem_cons_of_mem _ hy))
                    (by simpa using hbr) hx

theorem runTL_wf : ∀ (tls : List (List String)) (st : PState) (out : List Block),
    (∀ tl ∈ tls, ∀ t ∈ tl, rTok t = true) →
    wfState st = true →
    runTL tls st = .ok out →
    wfDoc out = true
  | [], st, out, _, hst, heq => by
    rw [runTL] at heq
    cases hcur : st.cur with
    | none =>
      rw [hcur] at heq
      cases heq
      rw [wfState, Bool.and_eq_true] at hst
      exact hst.1
    | some c =>
      rw [hcur] at heq
      cases heq
  | tl :: rest, st, out, htl, hst, heq => by
    rw [runTL] at heq
    cases hstep : stepTL st tl with
    | error e =>
      rw [hstep] at heq
      cases heq
    | ok st2 =>
      rw [hstep] at heq
      rcases st with ⟨blocks, cur⟩
      exact runTL_wf rest st2 out
        (fun x hx => htl x (List.mem_cons_of_mem _ hx))
        (stepTL_wf blocks cur tl st2 (htl tl (List.mem_cons_self _ _)) hst hstep)
        heq

theorem parse_wf {s : String} {d : List Block} (h : parse s = .ok d) :
    wfDoc d = true := by
  unfold parse at h
  cases hm : (splitCh '\n' s.data).mapM tokenizeLine with
  | error e =>
    rw [hm] at h
    cases h
  | ok tls =>
    rw [hm] at h
    have hrun : runTL tls ⟨[], none⟩ = .ok d := h
    have hsane : ∀ tl ∈ tls, ∀ t ∈ tl, rTok t = true := by
      intro tl htl t ht
      rcases mapM_ok_mem tokenizeLine _ tls hm tl htl with ⟨piece, hp, hpe⟩
      exact tokenizeAux_sane piece .ws [] [] tl
        (splitCh_no_sep '\n' s.data piece hp)
        (by intro x hx; cases hx)
        (by intro x hx; cases hx)
        hpe t ht
    exact runTL_wf tls ⟨[], none⟩ d hsane rfl hrun

/-- C7: for every well-formed document text, parsing, serializing and
re-parsing preserves the block, line and token structure: whenever the
text parses to a document, serializing that document and parsing the
result yields exactly the same document. -/
theorem C7_parse_serialize_roundtrip (x : String) (d : List Block)
    (h : parse x = .ok d) : parse (serialize d) = parse x := by
  rw [h]
  exact parse_serialize (parse_wf h)

/-- C7 witness: the round trip evaluated on a concrete Corefile text with
a nested body and a quoted token. -/
theorem C7_witness :
    parse (serialize [⟨[".:53"],
      [Line.mk "errors" [] none,
       Line.mk "hosts" [hostsPath] (some (.cons (.mk "fallthrough" [] none) .nil)),
       Line.mk "log" ["a b"] none]⟩]) =
      parse ".:53 \x7b\n errors\n hosts /etc/coredns-dir/hosts \x7b\n fallthrough\n \x7d\n log \"a b\"\n\x7d\n" :=
  C7_parse_serialize_roundtrip
    ".:53 \x7b\n errors\n hosts /etc/coredns-dir/hosts \x7b\n fallthrough\n \x7d\n log \"a b\"\n\x7d\n"
    [⟨[".:53"],
      [Line.mk "errors" [] none,
       Line.mk "hosts" [hostsPath] (some (.cons (.mk "fallthrough" [] none) .nil)),
       Line.mk "log" ["a b"] none]⟩]
    rfl

end CorednsHostsApi
